import Mathlib

/-!
Verification of the cp-openapi-interface-generator type-synthesis engine.
Shallow embedding of the generator's core modules (reference resolver,
enum validator/generator, interface generator, parameter registry and
model-file emitter), with theorems settling the specification claims.
-/

namespace CpGen

/-- A JavaScript runtime value, as the generator's untyped schema nodes.
Absent object fields are represented by `Option.none` at access sites;
`Js.undef` is the explicit `undefined` value. Numbers are modelled as
integers (the generator never computes with them). -/
inductive Js where
  | null
  | undef
  | bool (b : Bool)
  | num (n : Int)
  | str (s : String)
  | arr (elems : List Js)
  | obj (fields : List (String × Js))
deriving Repr

/-- Field access `v[k]` (with optional chaining): `undefined` for anything
but an object with the field present. Index/`length` properties of arrays
and strings are not modelled (the generator never walks into them). -/
def getField : Js → String → Option Js
  | .obj fields, k => fields.lookup k
  | _, _ => none

/-- JavaScript truthiness of a value. -/
def jsTruthy : Js → Bool
  | .null => false
  | .undef => false
  | .bool b => b
  | .num n => n != 0
  | .str s => !s.data.isEmpty
  | .arr _ => true
  | .obj _ => true

/-- Truthiness of a possibly-absent value (`undefined` is falsy). -/
def jsTruthyOpt : Option Js → Bool
  | some v => jsTruthy v
  | none => false

/-- Lexicographic comparison of character lists by code point, the order
JavaScript's default `Array.prototype.sort` uses on strings (code-unit
comparison; identical on the basic multilingual plane). -/
def charListLe : List Char → List Char → Bool
  | [], _ => true
  | _ :: _, [] => false
  | a :: as, b :: bs =>
    if a.toNat < b.toNat then true
    else if b.toNat < a.toNat then false
    else charListLe as bs

/-- String comparison `a <= b` as JavaScript's `sort` comparator sees it. -/
def strLe (a b : String) : Bool := charListLe a.data b.data

mutual

/-- JavaScript `String(value)` conversion for the values the generator
meets (arrays join their elements with commas; plain objects print as
`[object Object]`). -/
def jsToString : Js → String
  | .null => "null"
  | .undef => "undefined"
  | .bool true => "true"
  | .bool false => "false"
  | .num n => toString n
  | .str s => s
  | .arr elems => String.intercalate "," (jsToStringList elems)
  | .obj _ => "[object Object]"

/-- Elementwise `String(value)` over a list (array joining). -/
def jsToStringList : List Js → List String
  | [] => []
  | x :: xs => jsToString x :: jsToStringList xs

end

/-- JSON string-body escaping used by `JSON.stringify` (the escapes that
can occur in the generator's enum values; rarer control characters are
not modelled). -/
def jsonEscapeChar : Char → String
  | '\\' => "\\\\"
  | '\"' => "\\\""
  | '\n' => "\\n"
  | '\r' => "\\r"
  | '\t' => "\\t"
  | c => String.mk [c]

mutual

/-- `JSON.stringify` for the values the generator hashes; `undefined`
inside an array stringifies to `null`, as in JavaScript. -/
def jsonStringify : Js → String
  | .null => "null"
  | .undef => "null"
  | .bool true => "true"
  | .bool false => "false"
  | .num n => toString n
  | .str s => "\"" ++ String.join (s.data.map jsonEscapeChar) ++ "\""
  | .arr elems => "[" ++ String.intercalate "," (jsonStringifyList elems) ++ "]"
  | .obj fields =>
    "\x7b" ++ String.intercalate "," (jsonStringifyFields fields) ++ "\x7d"

/-- Elementwise `JSON.stringify` over an array's elements. -/
def jsonStringifyList : List Js → List String
  | [] => []
  | x :: xs => jsonStringify x :: jsonStringifyList xs

/-- `JSON.stringify` of an object's fields. -/
def jsonStringifyFields : List (String × Js) → List String
  | [] => []
  | f :: fs => ("\"" ++ f.1 ++ "\":" ++ jsonStringify f.2) :: jsonStringifyFields fs

end

/-- `s.split(sep)` on character lists: JavaScript semantics
(`"".split - [""]`, separators at the ends give empty segments). -/
def splitOnChar (sep : Char) : List Char → List (List Char)
  | [] => [[]]
  | c :: cs =>
    if c = sep then [] :: splitOnChar sep cs
    else match splitOnChar sep cs with
      | [] => [[c]]
      | seg :: segs => (c :: seg) :: segs

/-- Recover a `String` from a character list. -/
def ofChars (l : List Char) : String := String.mk l

/-- ASCII letter or digit, the class `[a-zA-Z0-9]`. -/
def isAsciiAlnum (c : Char) : Bool := c.isAlpha || c.isDigit

/-- Body of `toPascalCase` after the emptiness check: replace every
non-alphanumeric character by a space, uppercase each character standing
at the start or right after whitespace (the match consumes the space),
then delete the remaining whitespace.  On the space-separated
intermediate string, this amounts to: drop spaces, uppercase exactly the
characters that followed a boundary. -/
def pascalChars : List Char → Bool → List Char
  | [], _ => []
  | c :: cs, boundary =>
    if c = ' ' then pascalChars cs true
    else (if boundary then c.toUpper else c) :: pascalChars cs false

/-- `toPascalCase` from `src/utils/converters.ts`: throws on an empty
(falsy) input, else PascalCases the name. -/
def toPascalCase (name : String) : Except String String :=
  if name.data.isEmpty then .error "toPascalCase requires a non-empty string"
  else .ok (ofChars (pascalChars (name.data.map fun c => if isAsciiAlnum c then c else ' ') true))

/-- `ref.replace(/^#\//, '')`: strip a leading `#/` when present. -/
def stripHashSlash : List Char → List Char
  | '#' :: '/' :: rest => rest
  | l => l

/-- `parts.reduce((acc, part) => acc?.[part], spec)`: walk the document
along the path segments; `none` is JavaScript's `undefined`. -/
def walkParts (parts : List String) (spec : Js) : Option Js :=
  parts.foldl (fun acc part => acc.bind fun v => getField v part) (some spec)

/-- `ref.startsWith('#/')`. -/
def startsWithHashSlash : List Char → Bool
  | '#' :: '/' :: _ => true
  | _ => false

/-- `resolveRef` from `src/utils/openapi-resolver.ts` (the throwing
version): rejects empty refs and refs not starting with `#/`, then walks
the document and throws when the result is `undefined`. -/
def resolveRef (ref : String) (spec : Js) : Except String Js :=
  if ref.data.isEmpty then
    .error "Invalid $ref: must be a non-empty string"
  else if !startsWithHashSlash ref.data then
    .error ("Invalid $ref format: " ++ ref ++ ". Must start with #/")
  else
    match walkParts ((splitOnChar '/' (stripHashSlash ref.data)).map ofChars) spec with
    | some v => .ok v
    | none => .error ("Unable to resolve $ref: " ++ ref)

/-- `getSchemaNameFromRef` from `src/utils/openapi-resolver.ts` (the
throwing version): `ref.split('/').pop()`, rejecting an empty ref and an
empty terminal segment. -/
def getSchemaNameFromRef (ref : String) : Except String String :=
  if ref.data.isEmpty then
    .error "Invalid $ref: must be a non-empty string"
  else
    let name := (splitOnChar '/' ref.data).getLastD []
    if name.isEmpty then .error ("Unable to extract schema name from $ref: " ++ ref)
    else .ok (ofChars name)

/-- The permissive resolver variant (`part_007`): no format checks, and a
missing path just yields `undefined` (`none`). -/
def resolveRefU (ref : String) (spec : Js) : Option Js :=
  walkParts ((splitOnChar '/' (stripHashSlash ref.data)).map ofChars) spec

/-- The permissive name extractor variant (`part_007`):
`ref.split('/').pop() || 'Unknown'`. -/
def getSchemaNameFromRefU (ref : String) : String :=
  let name := (splitOnChar '/' ref.data).getLastD []
  if name.isEmpty then "Unknown" else ofChars name

/-- The identifier pattern `^[a-zA-Z_][a-zA-Z0-9_]*$` of the enum
validator. -/
def isIdentString (s : String) : Bool :=
  match s.data with
  | [] => false
  | c :: cs => (c.isAlpha || c = '_') && cs.all fun d => d.isAlpha || d.isDigit || d = '_'

/-- Loop body of `validateEnumVarNames`: accept each entry only if it is
a string matching the identifier pattern and not used before; any failure
rejects the whole array (returns `[]`). `used` holds the already-accepted
names. -/
def validateVarNamesLoop : List Js → List String → List String
  | [], acc => acc.reverse
  | n :: rest, acc =>
    match n with
    | .str s =>
      if isIdentString s && !acc.contains s then validateVarNamesLoop rest (s :: acc)
      else []
    | _ => []

/-- `validateEnumVarNames` from `src/validators/enum-validator.ts`:
returns the validated names, or `[]` (triggering the sanitization
fallback for every member) when the input is not an array, has the wrong
length, or contains a non-identifier or duplicate entry. -/
def validateEnumVarNames (varNames : Option Js) (enumValues : List Js) : List String :=
  match varNames with
  | some (.arr names) =>
    if names.length = enumValues.length then validateVarNamesLoop names []
    else []
  | _ => []

/-- Disambiguation loop of `sanitizeEnumKey`: try `base`, then `base_1`,
`base_2`, …; the candidates are pairwise distinct, so
`used.length + 2` iterations always suffice and the fuel never runs
out on the loop's actual semantics. -/
def uniquifyKey (base : String) (used : List String) : String :=
  go (used.length + 2) base 1
where
  go : Nat → String → Nat → String
    | 0, candidate, _ => candidate
    | fuel + 1, candidate, counter =>
      if used.contains candidate then go fuel (base ++ "_" ++ toString counter) (counter + 1)
      else candidate

/-- `sanitizeEnumKey` from `src/validators/enum-validator.ts`: stringify,
replace non-alphanumerics (except `_`) by `_`, trim `_` runs at both
ends, guard a leading digit with `_`, fall back to `VALUE` when empty,
then disambiguate against `usedKeys`; returns the key together with the
grown used-key set. -/
def sanitizeEnumKey (value : Js) (usedKeys : List String) : String × List String :=
  let str := (jsToString value).data
  let s1 := str.map fun c => if isAsciiAlnum c || c = '_' then c else '_'
  let s2 := ((s1.dropWhile (· = '_')).reverse.dropWhile (· = '_')).reverse
  let s3 := match s2 with
    | c :: _ => if c.isDigit then '_' :: s2 else s2
    | [] => s2
  let base := if s3.isEmpty then "VALUE" else ofChars s3
  let key := uniquifyKey base usedKeys
  (key, usedKeys ++ [key])

/-- Charwise form of `getEnumValueString`'s escape chain (`\\` first,
then `'`, `\n`, `\r`, `\t`); the sequential global replaces of the
source are equivalent to this single pass because each later pattern
never matches text any earlier replacement introduced. -/
def escapeEnumChar : Char → String
  | '\\' => "\\\\"
  | '\x27' => "\\\x27"
  | '\n' => "\\n"
  | '\r' => "\\r"
  | '\t' => "\\t"
  | c => String.mk [c]

/-- String escape of `getEnumValueString`. -/
def escapeEnumString (s : String) : String := String.join (s.data.map escapeEnumChar)

/-- `getEnumValueString` from `src/validators/enum-validator.ts`:
`null`/`undefined` throw; numbers and booleans print unquoted; anything
else is stringified, escaped and single-quoted. -/
def getEnumValueString (value : Js) : Except String String :=
  match value with
  | .null => .error "Invalid enum value: null or undefined are not allowed in TypeScript enums"
  | .undef => .error "Invalid enum value: null or undefined are not allowed in TypeScript enums"
  | .num n => .ok (toString n)
  | .bool b => .ok (if b then "true" else "false")
  | v => .ok ("\x27" ++ escapeEnumString (jsToString v) ++ "\x27")

/-- `${JSON.stringify(value)}` inside the enum error template:
`JSON.stringify(undefined)` is `undefined`, which the template renders
as the text `undefined`. -/
def jsonStringifyTemplate : Js → String
  | .undef => "undefined"
  | v => jsonStringify v

/-- Member-rendering loop of `generateEnum`: at each index pick the
validated caller name if present and truthy, else sanitize the value;
render the value; a `getEnumValueString` throw is re-thrown with the
enum name, index and stringified value. -/
def genEnumLines (name : String) (total : Nat) (varNames : List String) :
    Nat → List Js → List String → Except String (List String)
  | _, [], _ => .ok []
  | i, v :: vs, used =>
    let comma := if i < total - 1 then "," else ""
    let keyUsed : String × List String :=
      match varNames.get? i with
      | some nm => if nm.data.isEmpty then sanitizeEnumKey v used else (nm, used)
      | none => sanitizeEnumKey v used
    match getEnumValueString v with
    | .ok ev =>
      match genEnumLines name total varNames (i + 1) vs keyUsed.2 with
      | .ok rest => .ok (("  " ++ keyUsed.1 ++ " = " ++ ev ++ comma) :: rest)
      | .error e => .error e
    | .error e =>
      .error ("Failed to generate enum " ++ name ++ " at index " ++ toString i ++
        " (value: " ++ jsonStringifyTemplate v ++ "): " ++ e)

/-- `generateEnum` from `src/generators/enum-generator.ts`. -/
def generateEnum (name : String) (schema : Js) (exportMain : Bool) : Except String String :=
  match getField schema "enum" with
  | some (.arr values) =>
    if values.isEmpty then .error "Invalid enum schema: missing or empty enum array"
    else
      match genEnumLines name values.length
          (validateEnumVarNames (getField schema "x-enum-varnames") values) 0 values [] with
      | .ok lines =>
        .ok (String.intercalate "\n"
          (((if exportMain then "export " else "") ++ "enum " ++ name ++ " \x7b") :: lines ++ ["\x7d"]))
      | .error e => .error e
  | _ => .error "Invalid enum schema: missing or empty enum array"

/-- `value.type === s` for a string literal `s`. -/
def typeIs (v : Js) (s : String) : Bool :=
  match getField v "type" with
  | some (.str t) => t == s
  | _ => false

/-- The guard `schema.enum && Array.isArray(schema.enum) && schema.enum.length > 0`. -/
def isNonEmptyEnum (v : Js) : Bool :=
  match getField v "enum" with
  | some (.arr (_ :: _)) => true
  | _ => false

/-- A literal of the inline union `getTypeFromSchema` builds from an
enum: numbers and booleans print bare; anything else is stringified with
single quotes escaped (only quotes — unlike the enum generator's richer
escape) and single-quoted. -/
def unionLiteral : Js → String
  | .num n => toString n
  | .bool b => if b then "true" else "false"
  | v =>
    "\x27" ++
      String.join ((jsToString v).data.map fun c =>
        if c = '\x27' then "\\\x27" else String.mk [c]) ++ "\x27"

/-- `getTypeFromSchema` from `src/generators/interface-generator.ts`
(same text appears in the `part_003` variant): resolve a `$ref` first
(when a spec is supplied), render a non-empty `enum` as an inline union
of literals, else map primitive kinds, recursing into array items.
Purely functional: it touches no dedup state and registers no
declaration. Fuel only bounds the recursion depth (the source would loop
forever on a `$ref` cycle here). -/
def getTypeFromSchema : Nat → Option Js → Option Js → Except String String
  | 0, _, _ => .error "OUT_OF_FUEL"
  | fuel + 1, schema, spec =>
    match schema with
    | none => .ok "unknown"
    | some v =>
      if !jsTruthy v then .ok "unknown"
      else if jsTruthyOpt (getField v "$ref") && jsTruthyOpt spec then
        match getField v "$ref", spec with
        | some (.str r), some sp => do
          let resolved ← resolveRef r sp
          if jsTruthy resolved then getTypeFromSchema fuel (some resolved) spec
          else .ok "unknown"
        | _, _ => .error "TypeError: $ref is not a string"
      else match getField v "enum" with
        | some (.arr (e :: es)) =>
          .ok (String.intercalate " | " ((e :: es).map unionLiteral))
        | _ =>
          match getField v "type" with
          | some (.str "integer") => .ok "number"
          | some (.str "number") => .ok "number"
          | some (.str "string") => .ok "string"
          | some (.str "boolean") => .ok "boolean"
          | some (.str "array") => do
            let itemType ← getTypeFromSchema fuel (getField v "items") spec
            .ok (itemType ++ "[]")
          | _ => .ok "unknown"

/-- The run-scoped dedup state of the interface generator:
`globalSeenTypes`, `generatedTypeDefinitions` (an insertion-ordered
name-to-code record) and the `nestedInterfaces` array the driver passes
through the calls (it receives exactly the pushes that
`generatedTypeDefinitions` receives). -/
structure GenState where
  seen : List String
  defs : List (String × String)
  nested : List String
deriving Repr, DecidableEq

/-- The empty dedup state at the start of a generation run. -/
def emptyState : GenState := ⟨[], [], []⟩

/-- The final `switch (value.type)` of `toTsType`: note the default maps
to `any`, unlike `getTypeFromSchema`'s `unknown`. -/
def toTsTypePrim (value : Js) : String :=
  match getField value "type" with
  | some (.str "integer") => "number"
  | some (.str "number") => "number"
  | some (.str "string") => "string"
  | some (.str "boolean") => "boolean"
  | _ => "any"

/-- `${items?.type ?? 'any'}[]` — the primitive-array shortcut returns
the raw stringified `type` field. -/
def itemsPrimArray (items : Option Js) : String :=
  (match items.bind fun it => getField it "type" with
   | none => "any"
   | some .null => "any"
   | some .undef => "any"
   | some t => jsToString t) ++ "[]"

mutual

/-- `toTsType` from `src/generators/interface-generator.ts`. Dispatch:
`$ref` (materialize the referenced declaration under its canonical name,
marking it seen *before* recursing), inline enum (PascalCase the path
name), array (item `$ref` / inline object / primitive), object, then the
primitive switch. Each recursive call consumes one unit of fuel; for
every input on which the source terminates a large enough fuel yields
its exact result. State mutations on a thrown error are not preserved
(no claim depends on them). -/
def toTsType : Nat → Js → Js → String → GenState → Except String (String × GenState)
  | 0, _, _, _, _ => .error "OUT_OF_FUEL"
  | fuel + 1, spec, value, name, s =>
    if jsTruthyOpt (getField value "$ref") then
      match getField value "$ref" with
      | some (.str refStr) => do
        let ref ← resolveRef refStr spec
        if jsTruthy ref then do
          let typeName ← getSchemaNameFromRef refStr
          if s.seen.contains typeName then pure (typeName, s)
          else do
            let s1 : GenState := { s with seen := s.seen ++ [typeName] }
            let (code, s2) ← generateInterface fuel spec typeName ref true s1
            pure (typeName,
              { s2 with defs := s2.defs ++ [(typeName, code)], nested := s2.nested ++ [code] })
        else pure ("unknown", s)
      | _ => .error "TypeError: $ref is not a string"
    else if isNonEmptyEnum value then do
      let typeName ← toPascalCase name
      if s.seen.contains typeName then pure (typeName, s)
      else do
        let s1 : GenState := { s with seen := s.seen ++ [typeName] }
        let (code, s2) ← generateInterface fuel spec typeName value true s1
        pure (typeName,
          { s2 with defs := s2.defs ++ [(typeName, code)], nested := s2.nested ++ [code] })
    else if typeIs value "array" then
      let items := getField value "items"
      if jsTruthyOpt (items.bind fun it => getField it "$ref") then
        match items.bind fun it => getField it "$ref" with
        | some (.str refStr) => do
          let ref ← resolveRef refStr spec
          if jsTruthy ref then do
            let typeName ← getSchemaNameFromRef refStr
            if s.seen.contains typeName then pure (typeName ++ "[]", s)
            else do
              let s1 : GenState := { s with seen := s.seen ++ [typeName] }
              let (code, s2) ← generateInterface fuel spec typeName ref true s1
              pure (typeName ++ "[]",
                { s2 with defs := s2.defs ++ [(typeName, code)], nested := s2.nested ++ [code] })
          else
            -- the source has no `else`: control falls out of the array
            -- block into the object test and the final switch
            toTsTypeObjSwitch fuel spec value name s
        | _ => .error "TypeError: $ref is not a string"
      else if
          (match items.bind fun it => getField it "type" with
           | some (.str t) => t == "object"
           | _ => false) || jsTruthyOpt (items.bind fun it => getField it "properties") then
        match items with
        | some itemsVal => do
          let typeName ← toPascalCase (name ++ "Item")
          if s.seen.contains typeName then pure (typeName ++ "[]", s)
          else do
            let s1 : GenState := { s with seen := s.seen ++ [typeName] }
            let (code, s2) ← generateInterface fuel spec typeName itemsVal false s1
            pure (typeName ++ "[]",
              { s2 with defs := s2.defs ++ [(typeName, code)], nested := s2.nested ++ [code] })
        | none => .error "unreachable: items is absent but matched the object test"
      else pure (itemsPrimArray items, s)
    else toTsTypeObjSwitch fuel spec value name s

/-- The object test and the primitive switch at the end of `toTsType`
(split out because the array branch can fall through into it). An object
with no properties and no `additionalProperties` is the open map type;
otherwise a `{name}Item` declaration is synthesized. -/
def toTsTypeObjSwitch : Nat → Js → Js → String → GenState → Except String (String × GenState)
  | 0, _, _, _, _ => .error "OUT_OF_FUEL"
  | fuel + 1, spec, value, name, s =>
    if typeIs value "object" || jsTruthyOpt (getField value "properties") then
      if typeIs value "object" && !jsTruthyOpt (getField value "properties") &&
          (getField value "additionalProperties").isNone then
        pure ("Record<string, unknown>", s)
      else do
        let typeName ← toPascalCase (name ++ "Item")
        if s.seen.contains typeName then pure (typeName, s)
        else do
          let s1 : GenState := { s with seen := s.seen ++ [typeName] }
          let (code, s2) ← generateInterface fuel spec typeName value false s1
          pure (typeName,
            { s2 with defs := s2.defs ++ [(typeName, code)], nested := s2.nested ++ [code] })
    else pure (toTsTypePrim value, s)

/-- `generateInterface` from `src/generators/interface-generator.ts`:
invalid schemas become `unknown` aliases, enum schemas delegate to the
enum generator, arrays become `{name}Item[]` aliases (materializing the
item declaration under the seen-guard), everything else renders an
interface over its properties. -/
def generateInterface : Nat → Js → String → Js → Bool → GenState →
    Except String (String × GenState)
  | 0, _, _, _, _, _ => .error "OUT_OF_FUEL"
  | fuel + 1, spec, name, schema, exportMain, s =>
    if !jsTruthy schema ||
        (!jsTruthyOpt (getField schema "properties") && !jsTruthyOpt (getField schema "type") &&
         !jsTruthyOpt (getField schema "enum")) then
      pure ((if exportMain then "export " else "") ++ "type " ++ name ++ " = unknown;", s)
    else if isNonEmptyEnum schema then do
      let code ← generateEnum name schema exportMain
      pure (code, s)
    else if typeIs schema "array" && jsTruthyOpt (getField schema "items") then do
      let itemName ← toPascalCase (name ++ "Item")
      let itemSchema ←
        (match getField schema "items" with
         | some itemsVal =>
           if jsTruthyOpt (getField itemsVal "$ref") then
             match getField itemsVal "$ref" with
             | some (.str r) => resolveRef r spec
             | _ => .error "TypeError: $ref is not a string"
           else pure itemsVal
         | none => .error "unreachable: items is truthy")
      if jsTruthy itemSchema then
        if s.seen.contains itemName then
          pure ((if exportMain then "export " else "") ++ "type " ++ name ++ " = " ++
            itemName ++ "[];", s)
        else do
          let s1 : GenState := { s with seen := s.seen ++ [itemName] }
          let (code, s2) ← generateInterface fuel spec itemName itemSchema false s1
          pure ((if exportMain then "export " else "") ++ "type " ++ name ++ " = " ++
            itemName ++ "[];",
            { s2 with defs := s2.defs ++ [(itemName, code)], nested := s2.nested ++ [code] })
      else
        pure ((if exportMain then "export " else "") ++ "type " ++ name ++ " = unknown[];", s)
    else do
      let props := match getField schema "properties" with | some (.obj l) => l | _ => []
      let (lines, s1) ← genProps fuel spec name (getField schema "required") props s
      pure (String.intercalate "\n"
        ((((if exportMain then "export " else "") ++ "interface " ++ name ++ " \x7b") :: lines) ++
          ["\x7d"]), s1)

/-- Property loop of `generateInterface`: each property line is
`  prop?: type;`, with `?` unless the property is listed in `required`;
the recursive `toTsType` call extends the path name with the PascalCase
property name. (A non-array `required` is modelled as absent.) -/
def genProps : Nat → Js → String → Option Js → List (String × Js) → GenState →
    Except String (List String × GenState)
  | 0, _, _, _, _, _ => .error "OUT_OF_FUEL"
  | _ + 1, _, _, _, [], s => .ok ([], s)
  | fuel + 1, spec, name, reqOpt, (prop, val) :: rest, s => do
    let optional :=
      if (match reqOpt with
          | some (.arr l) => l.any fun x => match x with | .str t => t == prop | _ => false
          | _ => false) then "" else "?"
    let pp ← toPascalCase prop
    let (tsType, s1) ← toTsType fuel spec val (name ++ pp) s
    let (lines, s2) ← genProps fuel spec name reqOpt rest s1
    pure (("  " ++ prop ++ optional ++ ": " ++ tsType ++ ";") :: lines, s2)

end

/-! ### Parameter-type registry (`parameter-extractor.ts`) -/

/-- `MAX_PARAM_NAME_COMBINATION` from `src/config/constants.ts`. -/
def MAX_PARAM_NAME_COMBINATION : Nat := 3

/-- `key.replace(/\?$/, '')`: drop a single trailing `?`. -/
def stripTrailingQ (s : String) : String :=
  match s.data.getLast? with
  | some '?' => ofChars s.data.dropLast
  | _ => s

/-- JavaScript `params[key]` rendered into a template (an absent key
would print `undefined`; `Object.keys` only yields present keys). -/
def lookupParam (params : List (String × String)) (key : String) : String :=
  match params.lookup key with
  | some t => t
  | none => "undefined"

/-- `createParamSignature` from `parameter-extractor.ts`: sort the keys
and join `key:type` pairs with `|`. -/
def createParamSignature (params : List (String × String)) : String :=
  let sortedKeys := List.insertionSort (fun a b => strLe a b) (params.map Prod.fst)
  String.intercalate "|" (sortedKeys.map fun key => key ++ ":" ++ lookupParam params key)

/-- JavaScript `Map.prototype.set`: replace in place when the key
exists (keeping its position in iteration order), else append. -/
def mapSet : List (String × String) → String → String → List (String × String)
  | [], k, v => [(k, v)]
  | (k', v') :: rest, k, v =>
    if k' == k then (k, v) :: rest else (k', v') :: mapSet rest k v

/-- The state-independent name `getReusableParamTypeName` would assign
when it creates a fresh entry: a `{Param}{Category}Params` name for one
key, the concatenated PascalCase keys for 2..3, and the caller's
fallback beyond that. -/
def freshParamTypeName (params : List (String × String)) (paramType : String)
    (fallbackName : String) : Except String String := do
  let keys := List.insertionSort (fun a b => strLe a b) (params.map Prod.fst)
  match keys with
  | [k] => do
    let a ← toPascalCase (stripTrailingQ k)
    let b ← toPascalCase paramType
    pure (a ++ b ++ "Params")
  | _ =>
    if 1 < keys.length && keys.length ≤ MAX_PARAM_NAME_COMBINATION then do
      let parts ← keys.mapM fun key => toPascalCase (stripTrailingQ key)
      let b ← toPascalCase paramType
      pure (String.join parts ++ b ++ "Params")
    else pure fallbackName

/-- `getReusableParamTypeName` from `parameter-extractor.ts`: scan the
`parameterTypes` map (name -> signature, in insertion order) for an
entry holding this signature and return its name; otherwise assign the
key-derived (or fallback) name and record it against the signature.
Returns the name and the updated map. -/
def getReusableParamTypeName (params : List (String × String)) (paramType : String)
    (fallbackName : String) (parameterTypes : List (String × String)) :
    Except String (String × List (String × String)) := do
  let signature := createParamSignature params
  match parameterTypes.find? fun e => e.2 == signature with
  | some e => pure (e.1, parameterTypes)
  | none => do
    let typeName ← freshParamTypeName params paramType fallbackName
    pure (typeName, mapSet parameterTypes typeName signature)

/-! ### The `part_003` interface-generator variant (enum-hash dedup) -/

/-- Dedup state of the `part_003` generator: `globalSeenTypes`,
`generatedTypeDefinitions`, the `nestedInterfaces` array, and
`enumValueHashToTypeName`. -/
structure GenState3 where
  seen : List String
  defs : List (String × String)
  nested : List String
  enumMap : List (String × String)
deriving Repr, DecidableEq

/-- The empty `part_003` state (after `resetGeneratorState`). -/
def emptyState3 : GenState3 := ⟨[], [], [], []⟩

/-- `getEnumValuesHash` from `part_003`: sort a copy of the values with
JavaScript's default comparator (stable, keyed on `String(value)`) and
`JSON.stringify` the sorted array. -/
def getEnumValuesHash (enumValues : List Js) : String :=
  jsonStringify (.arr
    (List.insertionSort (fun a b => strLe (jsToString a) (jsToString b)) enumValues))

mutual

/-- `toTsType` from `part_003`: as `toTsType`, except that the inline
enum branch first consults `enumValueHashToTypeName` and records the
hash of a newly created enum, the resolver is the permissive
(`part_007`) one, and the open-object shortcut does not look at
`additionalProperties`. -/
def toTsType3 : Nat → Js → Js → String → GenState3 → Except String (String × GenState3)
  | 0, _, _, _, _ => .error "OUT_OF_FUEL"
  | fuel + 1, spec, value, name, s =>
    if jsTruthyOpt (getField value "$ref") then
      match getField value "$ref" with
      | some (.str refStr) =>
        match resolveRefU refStr spec with
        | some ref =>
          if jsTruthy ref then do
            let typeName := getSchemaNameFromRefU refStr
            if s.seen.contains typeName then pure (typeName, s)
            else do
              let s1 : GenState3 := { s with seen := s.seen ++ [typeName] }
              let (code, s2) ← generateInterface3 fuel spec typeName ref true s1
              pure (typeName,
                { s2 with defs := s2.defs ++ [(typeName, code)], nested := s2.nested ++ [code] })
          else pure ("unknown", s)
        | none => pure ("unknown", s)
      | _ => .error "TypeError: $ref is not a string"
    else
      match getField value "enum" with
      | some (.arr (e :: es)) =>
        let enumHash := getEnumValuesHash (e :: es)
        match s.enumMap.lookup enumHash with
        | some existing => pure (existing, s)
        | none => do
          let typeName ← toPascalCase name
          if s.seen.contains typeName then pure (typeName, s)
          else do
            let s1 : GenState3 := { s with seen := s.seen ++ [typeName] }
            let (code, s2) ← generateInterface3 fuel spec typeName value true s1
            pure (typeName,
              { s2 with defs := s2.defs ++ [(typeName, code)], nested := s2.nested ++ [code], enumMap := mapSet s2.enumMap enumHash typeName })
      | _ =>
        if typeIs value "array" then
          let items := getField value "items"
          if jsTruthyOpt (items.bind fun it => getField it "$ref") then
            match items.bind fun it => getField it "$ref" with
            | some (.str refStr) =>
              match resolveRefU refStr spec with
              | some ref =>
                if jsTruthy ref then do
                  let typeName := getSchemaNameFromRefU refStr
                  if s.seen.contains typeName then pure (typeName ++ "[]", s)
                  else do
                    let s1 : GenState3 := { s with seen := s.seen ++ [typeName] }
                    let (code, s2) ← generateInterface3 fuel spec typeName ref true s1
                    pure (typeName ++ "[]",
                      { s2 with defs := s2.defs ++ [(typeName, code)], nested := s2.nested ++ [code] })
                else toTsTypeObjSwitch3 fuel spec value name s
              | none => toTsTypeObjSwitch3 fuel spec value name s
            | _ => .error "TypeError: $ref is not a string"
          else if
              (match items.bind fun it => getField it "type" with
               | some (.str t) => t == "object"
               | _ => false) || jsTruthyOpt (items.bind fun it => getField it "properties") then
            match items with
            | some itemsVal => do
              let typeName ← toPascalCase (name ++ "Item")
              if s.seen.contains typeName then pure (typeName ++ "[]", s)
              else do
                let s1 : GenState3 := { s with seen := s.seen ++ [typeName] }
                let (code, s2) ← generateInterface3 fuel spec typeName itemsVal false s1
                pure (typeName ++ "[]",
                  { s2 with defs := s2.defs ++ [(typeName, code)], nested := s2.nested ++ [code] })
            | none => .error "unreachable: items is absent but matched the object test"
          else pure (itemsPrimArray items, s)
        else toTsTypeObjSwitch3 fuel spec value name s

/-- Object test and primitive switch of `part_003`'s `toTsType`
(fall-through target of its array branch); any object without
`properties` is the open map type here. -/
def toTsTypeObjSwitch3 : Nat → Js → Js → String → GenState3 → Except String (String × GenState3)
  | 0, _, _, _, _ => .error "OUT_OF_FUEL"
  | fuel + 1, spec, value, name, s =>
    if typeIs value "object" || jsTruthyOpt (getField value "properties") then
      if typeIs value "object" && !jsTruthyOpt (getField value "properties") then
        pure ("Record<string, unknown>", s)
      else do
        let typeName ← toPascalCase (name ++ "Item")
        if s.seen.contains typeName then pure (typeName, s)
        else do
          let s1 : GenState3 := { s with seen := s.seen ++ [typeName] }
          let (code, s2) ← generateInterface3 fuel spec typeName value false s1
          pure (typeName,
            { s2 with defs := s2.defs ++ [(typeName, code)], nested := s2.nested ++ [code] })
    else pure (toTsTypePrim value, s)

/-- `generateInterface` from `part_003` (permissive resolver in the
array-alias branch, otherwise as `generateInterface`). -/
def generateInterface3 : Nat → Js → String → Js → Bool → GenState3 →
    Except String (String × GenState3)
  | 0, _, _, _, _, _ => .error "OUT_OF_FUEL"
  | fuel + 1, spec, name, schema, exportMain, s =>
    if !jsTruthy schema ||
        (!jsTruthyOpt (getField schema "properties") && !jsTruthyOpt (getField schema "type") &&
         !jsTruthyOpt (getField schema "enum")) then
      pure ((if exportMain then "export " else "") ++ "type " ++ name ++ " = unknown;", s)
    else if isNonEmptyEnum schema then do
      let code ← generateEnum name schema exportMain
      pure (code, s)
    else if typeIs schema "array" && jsTruthyOpt (getField schema "items") then do
      let itemName ← toPascalCase (name ++ "Item")
      let itemSchema : Option Js :=
        match getField schema "items" with
        | some itemsVal =>
          if jsTruthyOpt (getField itemsVal "$ref") then
            match getField itemsVal "$ref" with
            | some (.str r) => resolveRefU r spec
            | _ => none
          else some itemsVal
        | none => none
      match itemSchema with
      | some itemVal =>
        if jsTruthy itemVal then
          if s.seen.contains itemName then
            pure ((if exportMain then "export " else "") ++ "type " ++ name ++ " = " ++
              itemName ++ "[];", s)
          else do
            let s1 : GenState3 := { s with seen := s.seen ++ [itemName] }
            let (code, s2) ← generateInterface3 fuel spec itemName itemVal false s1
            pure ((if exportMain then "export " else "") ++ "type " ++ name ++ " = " ++
              itemName ++ "[];",
              { s2 with defs := s2.defs ++ [(itemName, code)], nested := s2.nested ++ [code] })
        else
          pure ((if exportMain then "export " else "") ++ "type " ++ name ++ " = unknown[];", s)
      | none =>
        pure ((if exportMain then "export " else "") ++ "type " ++ name ++ " = unknown[];", s)
    else do
      let props := match getField schema "properties" with | some (.obj l) => l | _ => []
      let (lines, s1) ← genProps3 fuel spec name (getField schema "required") props s
      pure (String.intercalate "\n"
        ((((if exportMain then "export " else "") ++ "interface " ++ name ++ " \x7b") :: lines) ++
          ["\x7d"]), s1)

/-- Property loop of `part_003`'s `generateInterface`. -/
def genProps3 : Nat → Js → String → Option Js → List (String × Js) → GenState3 →
    Except String (List String × GenState3)
  | 0, _, _, _, _, _ => .error "OUT_OF_FUEL"
  | _ + 1, _, _, _, [], s => .ok ([], s)
  | fuel + 1, spec, name, reqOpt, (prop, val) :: rest, s => do
    let optional :=
      if (match reqOpt with
          | some (.arr l) => l.any fun x => match x with | .str t => t == prop | _ => false
          | _ => false) then "" else "?"
    let pp ← toPascalCase prop
    let (tsType, s1) ← toTsType3 fuel spec val (name ++ pp) s
    let (lines, s2) ← genProps3 fuel spec name reqOpt rest s1
    pure (("  " ++ prop ++ optional ++ ": " ++ tsType ++ ";") :: lines, s2)

end

/-! ### Model-file emission (`model-file-generator` in `part_001`) -/

/-- `PRIMITIVE_TYPES` from `src/config/constants.ts`. -/
def PRIMITIVE_TYPES : List String := ["String", "Number", "Boolean", "Array", "Object"]

/-- JavaScript's `\s` class (the whitespace that can occur in rendered
declarations). -/
def isJsSpace (c : Char) : Bool :=
  c = ' ' || c = '\t' || c = '\n' || c = '\r' || c = '\x0b' || c = '\x0c'

/-- `\w`: the class `[A-Za-z0-9_]`. -/
def isWordChar (c : Char) : Bool := isAsciiAlnum c || c = '_'

/-- One attempt of `/:\s*([A-Z][a-zA-Z0-9]*(?:\[])?)/` (or the same with
`=`) at the head of the input: on success returns the full match text
and the remaining input. -/
def matchTypeTokenAt (lead : Char) (l : List Char) : Option (String × List Char) :=
  match l with
  | c :: cs =>
    if c = lead then
      let ws := cs.takeWhile isJsSpace
      let cs1 := cs.dropWhile isJsSpace
      match cs1 with
      | d :: cs2 =>
        if d.isUpper then
          let alnum := cs2.takeWhile isAsciiAlnum
          let cs3 := cs2.dropWhile isAsciiAlnum
          match cs3 with
          | '[' :: ']' :: cs4 =>
            some (ofChars (c :: ws ++ d :: alnum ++ ['[', ']']), cs4)
          | _ => some (ofChars (c :: ws ++ d :: alnum), cs3)
        else none
      | [] => none
    else none
  | [] => none

/-- Global regex scan (`String.prototype.match` with `/g`): collect the
leftmost non-overlapping matches, resuming after each match and
advancing one character on failure. The fuel equals the input length, so
it never runs out. -/
def scanAll (matchAt : List Char → Option (String × List Char)) :
    Nat → List Char → List String
  | 0, _ => []
  | _ + 1, [] => []
  | fuel + 1, l@(_ :: cs) =>
    match matchAt l with
    | some (m, rest) => m :: scanAll matchAt fuel rest
    | none => scanAll matchAt fuel cs

/-- `match.replace(/:\s*/, '')` (resp. `=`): the match starts with the
lead character, so this strips the lead and the whitespace run. -/
def stripLeadWs : List Char → List Char
  | _ :: cs => cs.dropWhile isJsSpace
  | [] => []

/-- `typeName.replace(/\[]$/, '')`: drop a trailing `[]`. -/
def stripTrailingBrackets (l : List Char) : List Char :=
  match l.reverse with
  | ']' :: '[' :: rest => rest.reverse
  | _ => l

/-- Set-like insertion preserving first-insertion order (`Set.add`). -/
def setAdd (acc : List String) (x : String) : List String :=
  if acc.contains x then acc else acc ++ [x]

/-- `extractTypeDependencies` from `part_001`: collect the
`: Type`/`: Type[]` property tokens and the `= Type`/`= Type[]` alias
tokens, keep those starting with an uppercase letter that are not
primitive/library names, as an insertion-ordered set. -/
def extractTypeDependencies (typeCode : String) : List String :=
  let collect (lead : Char) (acc : List String) : List String :=
    (scanAll (matchTypeTokenAt lead) typeCode.data.length typeCode.data).foldl
      (fun acc m =>
        let typeName := ofChars (stripTrailingBrackets (stripLeadWs m.data))
        if (match typeName.data with | c :: _ => c.isUpper | [] => false) &&
            !PRIMITIVE_TYPES.contains typeName then
          setAdd acc typeName
        else acc)
      acc
  collect '=' (collect ':' [])

/-- Substring containment (`String.prototype.includes`). -/
def containsSubstr (hay pat : List Char) : Bool :=
  match hay with
  | [] => pat.isEmpty
  | _ :: rest => (hay.take pat.length == pat) || containsSubstr rest pat

/-- One attempt of `/(?:export\s+)?(?:interface|type|enum)\s+(\w+)/` at
the head of the input, returning the captured name. -/
def matchDeclAt (l : List Char) : Option String :=
  let tryKw (kw : String) (l' : List Char) : Option String :=
    if l'.take kw.data.length == kw.data then
      let rest := l'.drop kw.data.length
      let ws := rest.takeWhile isJsSpace
      let rest1 := rest.dropWhile isJsSpace
      let ident := rest1.takeWhile isWordChar
      if !ws.isEmpty && !ident.isEmpty then some (ofChars ident) else none
    else none
  let tryKws (l' : List Char) : Option String :=
    (tryKw "interface" l').orElse fun _ => (tryKw "type" l').orElse fun _ => tryKw "enum" l'
  let viaExport : Option String :=
    if l.take 6 == "export".data then
      let rest := l.drop 6
      let ws := rest.takeWhile isJsSpace
      let rest1 := rest.dropWhile isJsSpace
      if !ws.isEmpty then tryKws rest1 else none
    else none
  viaExport.orElse fun _ => tryKws l

/-- First match of the `TYPE_DECLARATION` pattern over the whole string
(`String.prototype.match` without `/g`), i.e. the declared type name. -/
def firstDeclName : List Char → Option String
  | [] => none
  | l@(_ :: cs) =>
    match matchDeclAt l with
    | some m => some m
    | none => firstDeclName cs

/-- `ensureExported` from `part_001`: leave code containing `export `
unchanged, else prefix the leading `interface`/`type`/`enum` keyword
with `export ` (the keyword's following whitespace collapses to one
space, as the `$1 ` replacement does). -/
def ensureExported (typeCode : String) : String :=
  if containsSubstr typeCode.data "export ".data then typeCode
  else
    let tryKw (kw : String) : Option String :=
      if typeCode.data.take kw.data.length == kw.data then
        let rest := typeCode.data.drop kw.data.length
        if (match rest with | c :: _ => isJsSpace c | [] => false) then
          some ("export " ++ kw ++ " " ++ ofChars (rest.dropWhile isJsSpace))
        else none
      else none
    match tryKw "interface" with
    | some r => r
    | none =>
      match tryKw "type" with
      | some r => r
      | none =>
        match tryKw "enum" with
        | some r => r
        | none => typeCode

/-- Stand-in for `FILE_HEADERS.MODEL` from `src/config/constants.ts`
(the constant's file is not in the sources; only the header comment text
depends on it, which no claim concerns). -/
def FILE_HEADERS_MODEL (typeName : String) : String :=
  "// Generated model for " ++ typeName

/-- Stand-in for `FILE_HEADERS.MODELS_INDEX` (same caveat). -/
def FILE_HEADERS_MODELS_INDEX : String := "// Generated models index"

/-- One model file as handed to `writeFile`: the declaration name, the
sorted filtered import list it was given, and the full file text. -/
structure ModelFile where
  name : String
  imports : List String
  content : String
deriving Repr, DecidableEq

/-- Render one model file: header, blank line, one import per
dependency (when any, followed by a blank line), then the exported
declaration body. -/
def renderModelFile (typeName : String) (sortedDeps : List String)
    (exportedTypeCode : String) : String :=
  String.intercalate "\n"
    ([FILE_HEADERS_MODEL typeName, ""] ++
     (if sortedDeps.length > 0 then
        (sortedDeps.map fun dep => "import \x7b " ++ dep ++ " \x7d from \x27./" ++ dep ++ "\x27;") ++ [""]
      else []) ++
     [exportedTypeCode])

/-- Main loop of `generateModelFiles`: for each declaration (skipping
texts without a declaration match and names already emitted), compute
its dependencies, keep only names present in the full set, sort them,
and emit the file; `exports` records the emitted names in order. -/
def generateModelFilesLoop (allTypeNames : List String) :
    List String → List String → List ModelFile × List String
  | [], _ => ([], [])
  | typeCode :: rest, generated =>
    match firstDeclName typeCode.data with
    | none => generateModelFilesLoop allTypeNames rest generated
    | some typeName =>
      if generated.contains typeName then generateModelFilesLoop allTypeNames rest generated
      else
        let exportedTypeCode := ensureExported typeCode
        let validDependencies :=
          (extractTypeDependencies exportedTypeCode).filter fun dep => allTypeNames.contains dep
        let sortedDeps := List.insertionSort (fun a b => strLe a b) validDependencies
        let file : ModelFile :=
          ⟨typeName, sortedDeps, renderModelFile typeName sortedDeps exportedTypeCode⟩
        let (files, exports) := generateModelFilesLoop allTypeNames rest (generated ++ [typeName])
        (file :: files, typeName :: exports)

/-- First pass of `generateModelFiles`: the set of all declared type
names in the full input, used to filter dependencies. -/
def allDeclNames (allTypes : List String) : List String :=
  allTypes.foldl
    (fun acc typeCode =>
      match firstDeclName typeCode.data with
      | some n => setAdd acc n
      | none => acc) []

/-- `generateModelFiles` from `part_001`, with the `writeFile` effects
collected: returns the per-declaration files and the index file content
(`none` when `allTypes` is empty and the source returns early without
writing anything). -/
def generateModelFiles (allTypes : List String) : List ModelFile × Option String :=
  if allTypes.isEmpty then ([], none)
  else
    let (files, exports) := generateModelFilesLoop (allDeclNames allTypes) allTypes []
    let indexContent := String.intercalate "\n"
      ([FILE_HEADERS_MODELS_INDEX, ""] ++
       ((List.insertionSort (fun a b => strLe a b) exports).map fun typeName =>
         "export \x7b " ++ typeName ++ " \x7d from \x27./" ++ typeName ++ "\x27;"))
    (files, some indexContent)

/-- A schema document with a two-node reference cycle: named schema `a`
has a property `p` referencing `b`, and `b` has a property `q`
referencing `a`. -/
def cycleDoc (a b p q : String) : Js :=
  .obj [("components", .obj [("schemas", .obj [
    (a, .obj [("properties",
      .obj [(p, .obj [("$ref", .str ("#/components/schemas/" ++ b))])])]),
    (b, .obj [("properties",
      .obj [(q, .obj [("$ref", .str ("#/components/schemas/" ++ a))])])])])])]

/-! ### Auxiliary notions used by the verification statements -/

/-- One call to the parameter-type registry, as an operation's extractor
issues it. -/
structure ParamRequest where
  params : List (String × String)
  paramType : String
  fallbackName : String

/-- A sequence of registry calls threading the shared `parameterTypes`
map (the driver's single pass over the operations). -/
def runParamCalls : List ParamRequest → List (String × String) →
    Except String (List (String × String))
  | [], m => .ok m
  | r :: rs, m => do
    let (_, m') ← getReusableParamTypeName r.params r.paramType r.fallbackName m
    runParamCalls rs m'

/-- In a registry map, equal signatures always sit under the same name
(holds for every map the registry builds from scratch, because a new
entry is only created after the scan found its signature absent). -/
def GoodMap (m : List (String × String)) : Prop :=
  ∀ e ∈ m, ∀ e' ∈ m, e.2 = e'.2 → e.1 = e'.1

/-- The uniqueness invariant of the type-synthesis dedup state: recorded
declaration names are pairwise distinct and all marked seen. -/
def DefsInv (s : GenState) : Prop :=
  (s.defs.map Prod.fst).Nodup ∧ ∀ k ∈ s.defs.map Prod.fst, k ∈ s.seen

end CpGen

namespace CpGen

/-! ## Helper lemmas -/

theorem charListLe_total : ∀ l1 l2 : List Char, charListLe l1 l2 = true ∨ charListLe l2 l1 = true
  | [], _ => by left; rfl
  | _ :: _, [] => by right; rfl
  | a :: as, b :: bs => by
    simp only [charListLe]
    rcases Nat.lt_trichotomy a.toNat b.toNat with h | h | h
    · left; simp [h]
    · have h' : ¬ a.toNat < b.toNat := by omega
      have h'' : ¬ b.toNat < a.toNat := by omega
      rcases charListLe_total as bs with ih | ih <;> [left; right] <;> simp [h', h'', ih]
    · right; simp [h]

theorem charListLe_trans : ∀ {l1 l2 l3 : List Char}, charListLe l1 l2 = true →
    charListLe l2 l3 = true → charListLe l1 l3 = true
  | [], _, _, _, _ => rfl
  | _ :: _, [], _, h, _ => by simp [charListLe] at h
  | _ :: _, _ :: _, [], _, h => by simp [charListLe] at h
  | a :: as, b :: bs, c :: cs, h1, h2 => by
    simp only [charListLe] at h1 h2 ⊢
    rcases Nat.lt_trichotomy a.toNat c.toNat with h | h | h
    · simp [h]
    · have hab : ¬ a.toNat < c.toNat := by omega
      have hba : ¬ c.toNat < a.toNat := by omega
      simp only [hab, hba, if_false, if_true, if_neg, ite_false, ite_true]
      by_cases g1 : a.toNat < b.toNat
      · by_cases g2 : b.toNat < c.toNat
        · omega
        · have : ¬ c.toNat < b.toNat := by
            intro g3
            simp [if_neg g2, if_pos g3] at h2
          have hbc : b.toNat = c.toNat := by omega
          omega
      · by_cases g1' : b.toNat < a.toNat
        · simp [if_neg g1, if_pos g1'] at h1
        · have hab' : a.toNat = b.toNat := by omega
          by_cases g2 : b.toNat < c.toNat
          · omega
          · by_cases g2' : c.toNat < b.toNat
            · simp [if_neg g2, if_pos g2'] at h2
            · simp only [if_neg g1, if_neg g1'] at h1
              simp only [if_neg g2, if_neg g2'] at h2
              simp [charListLe_trans h1 h2]
    · exfalso
      by_cases g1 : a.toNat < b.toNat
      · by_cases g2 : b.toNat < c.toNat
        · omega
        · by_cases g2' : c.toNat < b.toNat
          · simp [if_neg g2, if_pos g2'] at h2
          · omega
      · by_cases g1' : b.toNat < a.toNat
        · simp [if_neg g1, if_pos g1'] at h1
        · by_cases g2 : b.toNat < c.toNat
          · omega
          · by_cases g2' : c.toNat < b.toNat
            · simp [if_neg g2, if_pos g2'] at h2
            · omega

theorem charListLe_antisymm : ∀ {l1 l2 : List Char}, charListLe l1 l2 = true →
    charListLe l2 l1 = true → l1 = l2
  | [], [], _, _ => rfl
  | [], _ :: _, _, h => by simp [charListLe] at h
  | _ :: _, [], h, _ => by simp [charListLe] at h
  | a :: as, b :: bs, h1, h2 => by
    simp only [charListLe] at h1 h2
    by_cases g1 : a.toNat < b.toNat
    · have g2 : ¬ b.toNat < a.toNat := by omega
      simp [g1, g2] at h2
    · by_cases g1' : b.toNat < a.toNat
      · simp [g1, g1'] at h1
      · simp only [if_neg g1, if_neg g1'] at h1 h2
        have hn : a.toNat = b.toNat := by omega
        have : a = b := Char.ext (UInt32.ext hn)
        rw [this, charListLe_antisymm h1 h2]

theorem strLe_total (a b : String) : strLe a b = true ∨ strLe b a = true :=
  charListLe_total a.data b.data

theorem strLe_trans {a b c : String} (h1 : strLe a b = true) (h2 : strLe b c = true) :
    strLe a c = true :=
  charListLe_trans h1 h2

theorem strLe_antisymm {a b : String} (h1 : strLe a b = true) (h2 : strLe b a = true) : a = b := by
  cases a; cases b
  exact congrArg String.mk (charListLe_antisymm h1 h2)

instance : IsTotal String fun a b => strLe a b = true := ⟨strLe_total⟩

instance : IsTrans String fun a b => strLe a b = true := ⟨fun _ _ _ => strLe_trans⟩

instance : IsAntisymm String fun a b => strLe a b = true := ⟨fun _ _ => strLe_antisymm⟩

instance : IsTotal Js fun a b => strLe (jsToString a) (jsToString b) = true :=
  ⟨fun a b => strLe_total (jsToString a) (jsToString b)⟩

instance : IsTrans Js fun a b => strLe (jsToString a) (jsToString b) = true :=
  ⟨fun _ _ _ => strLe_trans⟩

/-- Two sorted lists that are permutations of one another coincide when
the sort key is injective on their elements (JavaScript's sort is keyed
on `String(value)`, which need not be injective on mixed-type enums —
whence the hypothesis). -/
theorem sorted_perm_eq_of_injOn_key :
    ∀ {l1 l2 : List Js}, l1.Perm l2 →
    l1.Sorted (fun a b => strLe (jsToString a) (jsToString b) = true) →
    l2.Sorted (fun a b => strLe (jsToString a) (jsToString b) = true) →
    (∀ a ∈ l1, ∀ b ∈ l1, jsToString a = jsToString b → a = b) → l1 = l2
  | [], l2, h, _, _, _ => h.nil_eq
  | a :: t1, [], h, _, _, _ => by exact absurd h.symm.nil_eq (by simp)
  | a :: t1, b :: t2, h, s1, s2, inj => by
    have hmem_a : a ∈ b :: t2 := h.mem_iff.mp (List.mem_cons_self a t1)
    have hmem_b : b ∈ a :: t1 := h.mem_iff.mpr (List.mem_cons_self b t2)
    have hab : a = b := by
      rcases List.mem_cons.mp hmem_a with h1 | h1
      · exact h1
      rcases List.mem_cons.mp hmem_b with h2 | h2
      · exact h2.symm
      have r1 : strLe (jsToString a) (jsToString b) = true :=
        (List.sorted_cons.mp s1).1 b h2
      have r2 : strLe (jsToString b) (jsToString a) = true :=
        (List.sorted_cons.mp s2).1 a h1
      exact inj a (List.mem_cons_self a t1) b hmem_b (strLe_antisymm r1 r2)
    subst hab
    have htail : t1.Perm t2 := h.cons_inv
    have := sorted_perm_eq_of_injOn_key htail (List.sorted_cons.mp s1).2
      (List.sorted_cons.mp s2).2
      (fun x hx y hy hxy => inj x (List.mem_cons_of_mem a hx) y (List.mem_cons_of_mem a hy) hxy)
    rw [this]

/-- Permuting an enum's value list does not change its canonical hash,
provided `String(value)` is injective on the values. -/
theorem getEnumValuesHash_perm {v1 v2 : List Js} (hperm : v2.Perm v1)
    (hinj : ∀ a ∈ v1, ∀ b ∈ v1, jsToString a = jsToString b → a = b) :
    getEnumValuesHash v2 = getEnumValuesHash v1 := by
  unfold getEnumValuesHash
  congr 2
  apply sorted_perm_eq_of_injOn_key
  · exact (List.perm_insertionSort _ v2).trans (hperm.trans (List.perm_insertionSort _ v1).symm)
  · exact List.sorted_insertionSort _ v2
  · exact List.sorted_insertionSort _ v1
  · intro a ha b hb
    have ha' := hperm.mem_iff.mp ((List.mem_insertionSort _).mp ha)
    have hb' := hperm.mem_iff.mp ((List.mem_insertionSort _).mp hb)
    exact hinj a ha' b hb'

theorem lookup_mapSet_self : ∀ (m : List (String × String)) (k v : String),
    (mapSet m k v).lookup k = some v
  | [], k, v => by simp [mapSet, List.lookup]
  | (k', v') :: rest, k, v => by
    simp only [mapSet]
    by_cases h : k' = k
    · simp [h, List.lookup]
    · have : (k == k') = false := by simp [Ne.symm h]
      simp [h, List.lookup, this, lookup_mapSet_self rest k v]

theorem mem_mapSet_self : ∀ (m : List (String × String)) (k v : String),
    (k, v) ∈ mapSet m k v
  | [], k, v => by simp [mapSet]
  | (k', v') :: rest, k, v => by
    simp only [mapSet]
    by_cases h : k' = k
    · simp [h]
    · simp [h, mem_mapSet_self rest k v]

theorem mem_mapSet : ∀ {m : List (String × String)} {k v : String} {e : String × String},
    e ∈ mapSet m k v → e = (k, v) ∨ e ∈ m
  | [], k, v, e, h => by simp [mapSet] at h; left; exact h
  | (k', v') :: rest, k, v, e, h => by
    simp only [mapSet] at h
    by_cases g : k' = k
    · simp only [g, beq_self_eq_true, if_true] at h
      rcases List.mem_cons.mp h with h1 | h1
      · left; exact h1
      · right; exact List.mem_cons_of_mem _ h1
    · have gb : (k' == k) = false := beq_eq_false_iff_ne.mpr g
      simp only [gb, Bool.false_eq_true, if_false] at h
      rcases List.mem_cons.mp h with h1 | h1
      · right; rw [h1]; exact List.mem_cons_self _ _
      · rcases mem_mapSet h1 with h2 | h2
        · left; exact h2
        · right; exact List.mem_cons_of_mem _ h2

theorem mem_mapSet_of_ne : ∀ {m : List (String × String)} (k v : String) {e : String × String},
    e ∈ m → e.1 ≠ k → e ∈ mapSet m k v
  | [], k, v, e, he, _ => by simp at he
  | (k', v') :: rest, k, v, e, he, hne => by
    simp only [mapSet]
    by_cases g : k' = k
    · rcases List.mem_cons.mp he with h1 | h1
      · exfalso; apply hne; rw [h1, g]
      · simp only [g, beq_self_eq_true, if_true]
        exact List.mem_cons_of_mem _ h1
    · have gb : (k' == k) = false := beq_eq_false_iff_ne.mpr g
      simp only [gb, Bool.false_eq_true, if_false]
      rcases List.mem_cons.mp he with h1 | h1
      · rw [h1]; exact List.mem_cons_self _ _
      · exact List.mem_cons_of_mem _ (mem_mapSet_of_ne k v h1 hne)

theorem exceptBind_ok {α β : Type} (a : α) (f : α → Except String β) :
    ((Except.ok a : Except String α) >>= f) = f a := rfl

theorem exceptPure_eq_ok {α : Type} (a : α) : (pure a : Except String α) = .ok a := rfl

theorem getEnumValueString_isOk (v : Js) (h1 : v ≠ .null) (h2 : v ≠ .undef) :
    ∃ out, getEnumValueString v = .ok out := by
  cases v with
  | null => exact absurd rfl h1
  | undef => exact absurd rfl h2
  | bool b => exact ⟨_, rfl⟩
  | num n => exact ⟨_, rfl⟩
  | str s => exact ⟨_, rfl⟩
  | arr l => exact ⟨_, rfl⟩
  | obj l => exact ⟨_, rfl⟩

theorem genEnumLines_isOk (name : String) (total : Nat) (varNames : List String) :
    ∀ (vs : List Js) (i : Nat) (used : List String),
      (∀ v ∈ vs, v ≠ .null ∧ v ≠ .undef) →
      ∃ lines, genEnumLines name total varNames i vs used = .ok lines
  | [], i, used, _ => ⟨[], rfl⟩
  | v :: vs, i, used, hclean => by
    obtain ⟨out, hout⟩ :=
      getEnumValueString_isOk v (hclean v (List.mem_cons_self v vs)).1
        (hclean v (List.mem_cons_self v vs)).2
    obtain ⟨rest, hrest⟩ := genEnumLines_isOk name total varNames vs (i + 1)
      (match varNames.get? i with
        | some nm => if nm.data.isEmpty then sanitizeEnumKey v used else (nm, used)
        | none => sanitizeEnumKey v used).2
      (fun w hw => hclean w (List.mem_cons_of_mem v hw))
    simp only [genEnumLines, hout, hrest]
    exact ⟨_, rfl⟩

theorem generateEnum_isOk (name : String) (schema : Js) (em : Bool) (values : List Js)
    (henum : getField schema "enum" = some (.arr values)) (hne : values ≠ [])
    (hclean : ∀ v ∈ values, v ≠ .null ∧ v ≠ .undef) :
    ∃ code, generateEnum name schema em = .ok code := by
  obtain ⟨lines, hlines⟩ := genEnumLines_isOk name values.length
    (validateEnumVarNames (getField schema "x-enum-varnames") values) values 0 [] hclean
  have hemp : values.isEmpty = false := by
    cases values
    · exact absurd rfl hne
    · rfl
  simp only [generateEnum, henum, hemp, Bool.false_eq_true, if_false, hlines]
  exact ⟨_, rfl⟩

theorem genEnumLines_err (name : String) (total : Nat) (varNames : List String)
    (bad : Js) (post : List Js) (hbad : bad = Js.null ∨ bad = Js.undef) :
    ∀ (pre : List Js) (i : Nat) (used : List String), (∀ v ∈ pre, v ≠ .null ∧ v ≠ .undef) →
    genEnumLines name total varNames i (pre ++ bad :: post) used =
      .error ("Failed to generate enum " ++ name ++ " at index " ++ toString (i + pre.length) ++
        " (value: " ++ jsonStringifyTemplate bad ++
        "): Invalid enum value: null or undefined are not allowed in TypeScript enums")
  | [], i, used, _ => by
    have herr : getEnumValueString bad =
        .error "Invalid enum value: null or undefined are not allowed in TypeScript enums" := by
      rcases hbad with h | h <;> (subst h; rfl)
    simp only [List.nil_append, genEnumLines, herr, List.length_nil, Nat.add_zero]
    rw [String.append_assoc]
    rfl
  | v :: pre, i, used, hclean => by
    obtain ⟨out, hout⟩ :=
      getEnumValueString_isOk v (hclean v (List.mem_cons_self v pre)).1
        (hclean v (List.mem_cons_self v pre)).2
    have ih := genEnumLines_err name total varNames bad post hbad pre (i + 1)
      (match varNames.get? i with
        | some nm => if nm.data.isEmpty then sanitizeEnumKey v used else (nm, used)
        | none => sanitizeEnumKey v used).2
      (fun w hw => hclean w (List.mem_cons_of_mem v hw))
    have harith : i + 1 + pre.length = i + (pre.length + 1) := by omega
    simp only [List.cons_append, genEnumLines, hout, List.append_eq, ih, harith,
      List.length_cons]

theorem validateVarNamesLoop_ok : ∀ (ss : List String) (acc : List String),
    (∀ s ∈ ss, isIdentString s = true) → (acc.reverse ++ ss).Nodup →
    validateVarNamesLoop (ss.map Js.str) acc = acc.reverse ++ ss
  | [], acc, _, _ => by simp [validateVarNamesLoop]
  | s :: ss, acc, hid, hnd => by
    have hs : isIdentString s = true := hid s (List.mem_cons_self s ss)
    have hnotin : s ∉ acc := by
      intro hmem
      exact (List.nodup_append.mp hnd).2.2 (List.mem_reverse.mpr hmem)
        (List.mem_cons_self s ss)
    have hc : acc.contains s = false := by simpa using hnotin
    have ih := validateVarNamesLoop_ok ss (s :: acc)
      (fun t ht => hid t (List.mem_cons_of_mem s ht))
      (by simpa using hnd)
    simp only [List.map_cons, validateVarNamesLoop, hs, hc, Bool.not_false, Bool.and_self,
      if_true, ih]
    simp

theorem validateVarNamesLoop_characterize : ∀ (l : List Js) (acc : List String),
    validateVarNamesLoop l acc = [] ∨
    ∃ ss : List String, l = ss.map Js.str ∧ validateVarNamesLoop l acc = acc.reverse ++ ss ∧
      (∀ s ∈ ss, isIdentString s = true) ∧ ss.Nodup ∧ ∀ s ∈ ss, s ∉ acc
  | [], acc => by
    right
    exact ⟨[], rfl, by simp [validateVarNamesLoop], by simp, List.nodup_nil, by simp⟩
  | x :: l, acc => by
    cases x with
    | str s =>
      by_cases hcond : isIdentString s = true ∧ acc.contains s = false
      · have hni : s ∉ acc := by simpa using hcond.2
        have hstep : validateVarNamesLoop (Js.str s :: l) acc = validateVarNamesLoop l (s :: acc) := by
          simp [validateVarNamesLoop, hcond.1, hni]
        rcases validateVarNamesLoop_characterize l (s :: acc) with h | ⟨ss, hl, hres, hident, hnd, hfresh⟩
        · left; rw [hstep, h]
        · right
          refine ⟨s :: ss, by simp [hl], ?_, ?_, ?_, ?_⟩
          · rw [hstep, hres]; simp
          · intro t ht
            rcases List.mem_cons.mp ht with h1 | h1
            · rw [h1]; exact hcond.1
            · exact hident t h1
          · refine List.nodup_cons.mpr ⟨?_, hnd⟩
            intro hmem
            exact hfresh s hmem (List.mem_cons_self s acc)
          · intro t ht
            rcases List.mem_cons.mp ht with h1 | h1
            · rw [h1]; intro hmem; simpa [hmem] using hcond.2
            · exact fun hmem => hfresh t h1 (List.mem_cons_of_mem s hmem)
      · left
        rcases Decidable.not_and_iff_or_not.mp hcond with h | h
        · have : isIdentString s = false := by
            cases hi : isIdentString s
            · rfl
            · exact absurd hi h
          simp [validateVarNamesLoop, this]
        · have hmem : s ∈ acc := by
            cases hi : acc.contains s
            · exact absurd hi h
            · simpa using hi
          simp [validateVarNamesLoop, hmem]
    | null => left; simp [validateVarNamesLoop]
    | undef => left; simp [validateVarNamesLoop]
    | bool b => left; simp [validateVarNamesLoop]
    | num n => left; simp [validateVarNamesLoop]
    | arr a => left; simp [validateVarNamesLoop]
    | obj o => left; simp [validateVarNamesLoop]

/-! ## Claim theorems -/

/-- **C7.** For every enumeration whose value list contains `null` or
`undefined` at some index (the first such index), enum synthesis raises
an error identifying the declaration name and the offending index, and
no declaration is produced (the error propagates out of
`generateInterface` before any code is recorded); for value lists free
of `null` and `undefined`, numbers and booleans render unquoted and
strings render single-quoted with backslash, quote, newline,
carriage-return and tab escaped (`escapeEnumString`). -/
theorem c7_enum_null_raises
    (name : String) (schema : Js) (em : Bool) (pre post : List Js) (bad : Js)
    (henum : getField schema "enum" = some (.arr (pre ++ bad :: post)))
    (hbad : bad = Js.null ∨ bad = Js.undef)
    (hpre : ∀ v ∈ pre, v ≠ Js.null ∧ v ≠ Js.undef) :
    generateEnum name schema em =
      .error ("Failed to generate enum " ++ name ++ " at index " ++ toString pre.length ++
        " (value: " ++ jsonStringifyTemplate bad ++
        "): Invalid enum value: null or undefined are not allowed in TypeScript enums") ∧
    (∀ (fuel : Nat) (spec : Js) (s : GenState),
      generateInterface (fuel + 1) spec name schema em s =
        .error ("Failed to generate enum " ++ name ++ " at index " ++ toString pre.length ++
          " (value: " ++ jsonStringifyTemplate bad ++
          "): Invalid enum value: null or undefined are not allowed in TypeScript enums")) ∧
    (∀ n : Int, getEnumValueString (.num n) = .ok (toString n)) ∧
    (∀ b : Bool, getEnumValueString (.bool b) = .ok (if b then "true" else "false")) ∧
    (∀ s : String, getEnumValueString (.str s) = .ok ("\x27" ++ escapeEnumString s ++ "\x27")) := by
  have hobj : ∃ fields, schema = .obj fields := by
    cases schema with
    | obj fields => exact ⟨fields, rfl⟩
    | null => exact absurd henum (by simp [getField])
    | undef => exact absurd henum (by simp [getField])
    | bool b => exact absurd henum (by simp [getField])
    | num n => exact absurd henum (by simp [getField])
    | str s => exact absurd henum (by simp [getField])
    | arr l => exact absurd henum (by simp [getField])
  have hemp : (pre ++ bad :: post).isEmpty = false := by
    cases pre <;> rfl
  have hlines := genEnumLines_err name (pre ++ bad :: post).length
    (validateEnumVarNames (getField schema "x-enum-varnames") (pre ++ bad :: post))
    bad post hbad pre 0 [] hpre
  rw [Nat.zero_add] at hlines
  have hmain : generateEnum name schema em =
      .error ("Failed to generate enum " ++ name ++ " at index " ++ toString pre.length ++
        " (value: " ++ jsonStringifyTemplate bad ++
        "): Invalid enum value: null or undefined are not allowed in TypeScript enums") := by
    simp only [generateEnum, henum, hemp, Bool.false_eq_true, if_false, hlines]
  refine ⟨hmain, ?_, fun n => rfl, fun b => rfl, fun s => rfl⟩
  intro fuel spec s
  obtain ⟨fields, hfields⟩ := hobj
  have htruthy : jsTruthy schema = true := by rw [hfields]; rfl
  have henumT : jsTruthyOpt (getField schema "enum") = true := by
    rw [henum]; rfl
  have hnonempty : isNonEmptyEnum schema = true := by
    simp only [isNonEmptyEnum, henum]
    cases pre <;> rfl
  simp only [generateInterface, htruthy, henumT, Bool.not_true, Bool.and_false,
    Bool.or_false, Bool.false_eq_true, if_false, hnonempty, if_true, hmain]
  rfl

/-- **C7 witness.** A concrete enum with `null` at index 1. -/
theorem c7_enum_null_raises_witness :
    generateEnum "C" (.obj [("enum", .arr [.str "a", .null])]) true =
      .error ("Failed to generate enum " ++ "C" ++ " at index " ++ toString (1 : Nat) ++
        " (value: " ++ jsonStringifyTemplate .null ++
        "): Invalid enum value: null or undefined are not allowed in TypeScript enums") :=
  (c7_enum_null_raises "C" (.obj [("enum", .arr [.str "a", .null])]) true
    [.str "a"] [] .null (by rfl) (Or.inl rfl)
    (by intro v hv; simp at hv; rw [hv]; exact ⟨by simp, by simp⟩)).1

/-- **C6.** Caller-supplied member-name validation is all-or-nothing:
the result of `validateEnumVarNames` is either the full array (when the
length matches, every entry is an identifier string, and entries are
pairwise distinct) or `[]`; a valid array is always accepted in full;
and once rejected, `generateEnum` renders exactly as if no caller names
had been supplied (every member falls back to sanitization — no partial
reuse of valid entries). -/
theorem c6_varnames_all_or_nothing (vn : Option Js) (values : List Js) :
    (validateEnumVarNames vn values = [] ∨
      ∃ ss : List String, vn = some (.arr (ss.map Js.str)) ∧ ss.length = values.length ∧
        (∀ s ∈ ss, isIdentString s = true) ∧ ss.Nodup ∧
        validateEnumVarNames vn values = ss) ∧
    (∀ ss : List String, vn = some (.arr (ss.map Js.str)) → ss.length = values.length →
      (∀ s ∈ ss, isIdentString s = true) → ss.Nodup →
      validateEnumVarNames vn values = ss) ∧
    (∀ (name : String) (em : Bool) (schema schema' : Js),
      getField schema "enum" = some (.arr values) →
      getField schema' "enum" = some (.arr values) →
      validateEnumVarNames (getField schema "x-enum-varnames") values = [] →
      validateEnumVarNames (getField schema' "x-enum-varnames") values = [] →
      generateEnum name schema em = generateEnum name schema' em) := by
  refine ⟨?_, ?_, ?_⟩
  · cases vn with
    | none => left; rfl
    | some v =>
      cases v with
      | arr names =>
        have hdef : validateEnumVarNames (some (.arr names)) values =
            if names.length = values.length then validateVarNamesLoop names [] else [] := rfl
        rw [hdef]
        by_cases hlen : names.length = values.length
        · rw [if_pos hlen]
          rcases validateVarNamesLoop_characterize names [] with h | ⟨ss, hl, hres, hid, hnd, _⟩
          · left; exact h
          · right
            refine ⟨ss, by rw [hl], ?_, hid, hnd, by rw [hres]; simp⟩
            rw [hl] at hlen; simpa using hlen
        · rw [if_neg hlen]; left; rfl
      | null => left; rfl
      | undef => left; rfl
      | bool b => left; rfl
      | num n => left; rfl
      | str s => left; rfl
      | obj o => left; rfl
  · intro ss hvn hlen hid hnd
    subst hvn
    have hlen' : (ss.map Js.str).length = values.length := by simpa using hlen
    simp only [validateEnumVarNames, hlen', if_true]
    have := validateVarNamesLoop_ok ss [] hid (by simpa using hnd)
    simpa using this
  · intro name em schema schema' he he' hv hv'
    simp only [generateEnum, he, he', hv, hv']

/-- **C6 witness.** A valid array `["A", "B"]` is accepted in full, and
a rejected-varnames schema renders identically to one with no varnames
at all. -/
theorem c6_varnames_all_or_nothing_witness :
    validateEnumVarNames (some (.arr [.str "A", .str "B"])) [.num 1, .num 2] = ["A", "B"] ∧
    generateEnum "E"
        (.obj [("enum", .arr [.num 1]), ("x-enum-varnames", .arr [.str "A", .str "A"])]) true =
      generateEnum "E" (.obj [("enum", .arr [.num 1])]) true :=
  ⟨(c6_varnames_all_or_nothing (some (.arr [.str "A", .str "B"])) [.num 1, .num 2]).2.1
     ["A", "B"] rfl rfl (by decide) (by decide),
   (c6_varnames_all_or_nothing
       (some (.arr [.str "A", .str "A"])) [.num 1]).2.2 "E" true
     (.obj [("enum", .arr [.num 1]), ("x-enum-varnames", .arr [.str "A", .str "A"])])
     (.obj [("enum", .arr [.num 1])]) rfl rfl (by rfl) (by rfl)⟩

/-- **C8 counterexample.** The claim says resolution fails *exactly*
when some segment of the pointer path is missing; but the pointer `x`,
all of whose path segments are present in the document, is rejected up
front for lacking the `#/` prefix. -/
theorem c8_resolver_counterexample :
    resolveRef "x" (.obj [("x", .num 1)]) =
      .error "Invalid $ref format: x. Must start with #/" ∧
    walkParts ((splitOnChar '/' (stripHashSlash "x".data)).map ofChars)
      (.obj [("x", .num 1)]) = some (.num 1) :=
  ⟨rfl, rfl⟩

/-- **C8 (amended).** For pointers that do start with `#/`, resolution
succeeds with the designated node exactly when every segment of the
path is present (i.e. the walk does not come back `undefined`), and
fails with `Unable to resolve` exactly when the walk misses; name
extraction fails exactly when the pointer has no terminal segment
(empty pointer, or an empty last `/`-segment) and otherwise returns the
terminal segment; both functions are pure, so repeated calls agree
definitionally. -/
theorem c8_resolver_amended (ref : String) (doc : Js) (rest : List Char)
    (h : ref.data = '#' :: '/' :: rest) :
    (∀ v, resolveRef ref doc = .ok v ↔
      walkParts ((splitOnChar '/' (stripHashSlash ref.data)).map ofChars) doc = some v) ∧
    (resolveRef ref doc = .error ("Unable to resolve $ref: " ++ ref) ↔
      walkParts ((splitOnChar '/' (stripHashSlash ref.data)).map ofChars) doc = none) ∧
    (∀ r nm : String, getSchemaNameFromRef r = .ok nm ↔
      (r.data ≠ [] ∧ (splitOnChar '/' r.data).getLastD [] ≠ [] ∧
        nm = ofChars ((splitOnChar '/' r.data).getLastD []))) ∧
    (∀ r : String, (∃ e, getSchemaNameFromRef r = .error e) ↔
      (r.data = [] ∨ (splitOnChar '/' r.data).getLastD [] = [])) ∧
    (resolveRef ref doc = resolveRef ref doc ∧
      ∀ r : String, getSchemaNameFromRef r = getSchemaNameFromRef r) := by
  have hisEmpty : ref.data.isEmpty = false := by rw [h]; rfl
  have hmatch : startsWithHashSlash ref.data = true := by rw [h]; rfl
  have hres : resolveRef ref doc =
      match walkParts ((splitOnChar '/' (stripHashSlash ref.data)).map ofChars) doc with
      | some v => .ok v
      | none => .error ("Unable to resolve $ref: " ++ ref) := by
    simp only [resolveRef, hisEmpty, Bool.false_eq_true, if_false, hmatch, Bool.not_true]
  have hname : ∀ r : String, r.data ≠ [] → getSchemaNameFromRef r =
      (if ((splitOnChar '/' r.data).getLastD []).isEmpty then
        Except.error ("Unable to extract schema name from $ref: " ++ r)
      else .ok (ofChars ((splitOnChar '/' r.data).getLastD []))) := by
    intro r hr
    have hne : r.data.isEmpty = false := by
      cases hd : r.data
      · exact absurd hd hr
      · rfl
    simp only [getSchemaNameFromRef, hne, Bool.false_eq_true, if_false]
  have hemp : ∀ l : List Char, l.isEmpty = true ↔ l = [] := by
    intro l
    cases l <;> simp
  refine ⟨?_, ?_, ?_, ?_, rfl, fun _ => rfl⟩
  · intro v
    rw [hres]
    cases hw : walkParts ((splitOnChar '/' (stripHashSlash ref.data)).map ofChars) doc with
    | none => simp
    | some w => simp
  · rw [hres]
    cases hw : walkParts ((splitOnChar '/' (stripHashSlash ref.data)).map ofChars) doc with
    | none => simp
    | some w => simp
  · intro r nm
    by_cases hr : r.data = []
    · have hT : r.data.isEmpty = true := by rw [hr]; rfl
      simp only [getSchemaNameFromRef, hT, if_true]
      exact iff_of_false (by simp) (fun hx => hx.1 hr)
    · rw [hname r hr]
      by_cases hl : (splitOnChar '/' r.data).getLastD [] = []
      · rw [if_pos ((hemp _).mpr hl)]
        exact iff_of_false (by simp) (fun hx => hx.2.1 hl)
      · rw [if_neg (fun hc => hl ((hemp _).mp hc))]
        constructor
        · intro hok
          injection hok with hok
          exact ⟨hr, hl, hok.symm⟩
        · intro hx
          rw [hx.2.2]
  · intro r
    by_cases hr : r.data = []
    · have hT : r.data.isEmpty = true := by rw [hr]; rfl
      simp only [getSchemaNameFromRef, hT, if_true]
      exact iff_of_true ⟨_, rfl⟩ (Or.inl hr)
    · rw [hname r hr]
      by_cases hl : (splitOnChar '/' r.data).getLastD [] = []
      · rw [if_pos ((hemp _).mpr hl)]
        exact iff_of_true ⟨_, rfl⟩ (Or.inr hl)
      · rw [if_neg (fun hc => hl ((hemp _).mp hc))]
        constructor
        · intro ⟨e, he⟩
          exact absurd he (by simp)
        · intro hx
          rcases hx with hx | hx
          · exact absurd hx hr
          · exact absurd hx hl

/-- **C8 witness.** The amended theorem at the pointer
`#/components/schemas/User`. -/
theorem c8_resolver_amended_witness :
    resolveRef "#/components/schemas/User"
        (.obj [("components", .obj [("schemas", .obj [("User", .num 7)])])]) = .ok (.num 7) :=
  ((c8_resolver_amended "#/components/schemas/User"
      (.obj [("components", .obj [("schemas", .obj [("User", .num 7)])])])
      "components/schemas/User".data rfl).1 (.num 7)).mpr rfl

/-- **C10 counterexample.** The claim quantifies over every schema with
a non-empty `enum`, but a schema that also carries a truthy `$ref` is
resolved first (when a spec is supplied), so no inline union is
returned. -/
theorem c10_inline_enum_counterexample :
    getTypeFromSchema 2 (some (.obj [("$ref", .str "#/a"), ("enum", .arr [.str "x"])]))
      (some (.obj [("a", .obj [("type", .str "integer")])])) = .ok "number" ∧
    ("number" : String) ≠ "\x27x\x27" :=
  ⟨rfl, by decide⟩

/-- **C10 (amended).** For every schema whose `enum` field is a
non-empty array and which does not combine a truthy `$ref` with a
supplied spec, `getTypeFromSchema` returns the inline union of rendered
literals joined by `- | -` (numbers and booleans unquoted, everything
else stringified with single quotes escaped and single-quoted,
`null`/`undefined` included — no error is raised for them); the
function takes and returns no dedup state, so it registers no
declaration and mutates nothing. -/
theorem c10_inline_enum_amended (n : Nat) (v : Js) (spec : Option Js) (e : Js) (es : List Js)
    (href : (jsTruthyOpt (getField v "$ref") && jsTruthyOpt spec) = false)
    (henum : getField v "enum" = some (.arr (e :: es))) :
    getTypeFromSchema (n + 1) (some v) spec =
      .ok (String.intercalate " | " ((e :: es).map unionLiteral)) ∧
    unionLiteral .null = "\x27null\x27" ∧
    unionLiteral .undef = "\x27undefined\x27" ∧
    (∀ m : Int, unionLiteral (.num m) = toString m) ∧
    (∀ b : Bool, unionLiteral (.bool b) = if b then "true" else "false") ∧
    (∀ s : String, unionLiteral (.str s) =
      "\x27" ++ String.join (s.data.map fun c =>
        if c = '\x27' then "\\\x27" else String.mk [c]) ++ "\x27") := by
  have hobj : ∃ fields, v = .obj fields := by
    cases v with
    | obj fields => exact ⟨fields, rfl⟩
    | null => exact absurd henum (by simp [getField])
    | undef => exact absurd henum (by simp [getField])
    | bool b => exact absurd henum (by simp [getField])
    | num m => exact absurd henum (by simp [getField])
    | str s => exact absurd henum (by simp [getField])
    | arr l => exact absurd henum (by simp [getField])
  obtain ⟨fields, hfields⟩ := hobj
  have htruthy : jsTruthy v = true := by rw [hfields]; rfl
  refine ⟨?_, rfl, rfl, fun m => rfl, fun b => rfl, fun s => rfl⟩
  simp only [getTypeFromSchema, htruthy, Bool.not_true, Bool.false_eq_true, if_false, href,
    henum]

/-- **C10 witness.** The amended theorem at a mixed enum containing
`null`. -/
theorem c10_inline_enum_amended_witness :
    getTypeFromSchema 1 (some (.obj [("enum", .arr [.str "a", .null, .num 2])])) none =
      .ok "\x27a\x27 | \x27null\x27 | 2" :=
  (c10_inline_enum_amended 0 (.obj [("enum", .arr [.str "a", .null, .num 2])]) none
    (.str "a") [.null, .num 2] rfl rfl).1

/-- **C5 counterexample.** The claim says unrecognized kinds map to
`unknown` and never to `any`; but `toTsType`'s final switch defaults to
`any` (only `getTypeFromSchema` defaults to `unknown`). -/
theorem c5_primitive_counterexample :
    toTsType 2 (.obj []) (.obj [("type", .str "file")]) "X" emptyState =
      .ok ("any", emptyState) ∧
    ("any" : String) ≠ "unknown" ∧
    getTypeFromSchema 1 (some (.obj [("type", .str "file")])) none = .ok "unknown" :=
  ⟨rfl, by decide, rfl⟩

/-- **C5 (amended).** For schema nodes that are not a reference, enum,
array or object, both synthesizers map integer/number to `number`,
string to `string` and boolean to `boolean`; for unrecognized kinds
`getTypeFromSchema` yields the explicit `unknown`, while `toTsType`
falls back to the permissive `any`. -/
theorem c5_primitive_mapping (n : Nat) (spec v : Js) (specOpt : Option Js) (name : String)
    (s : GenState)
    (h1 : jsTruthyOpt (getField v "$ref") = false)
    (h2 : isNonEmptyEnum v = false)
    (h3 : typeIs v "array" = false)
    (h4 : typeIs v "object" = false)
    (h5 : jsTruthyOpt (getField v "properties") = false) :
    toTsType (n + 2) spec v name s = .ok (toTsTypePrim v, s) ∧
    (getField v "type" = some (.str "integer") → toTsTypePrim v = "number") ∧
    (getField v "type" = some (.str "number") → toTsTypePrim v = "number") ∧
    (getField v "type" = some (.str "string") → toTsTypePrim v = "string") ∧
    (getField v "type" = some (.str "boolean") → toTsTypePrim v = "boolean") ∧
    (∀ t, getField v "type" = t →
      t ≠ some (.str "integer") → t ≠ some (.str "number") → t ≠ some (.str "string") →
      t ≠ some (.str "boolean") → toTsTypePrim v = "any") ∧
    (jsTruthy v = true →
      getTypeFromSchema (n + 1) (some v) specOpt =
        .ok (if toTsTypePrim v = "any" then "unknown" else toTsTypePrim v)) := by
  have hswitch : toTsType (n + 2) spec v name s = .ok (toTsTypePrim v, s) := by
    simp only [toTsType, h1, Bool.false_eq_true, if_false, h2, h3, toTsTypeObjSwitch, h4, h5,
      Bool.or_self, Bool.false_or]
    rfl
  have htable :
      (getField v "type" = some (.str "integer") → toTsTypePrim v = "number") ∧
      (getField v "type" = some (.str "number") → toTsTypePrim v = "number") ∧
      (getField v "type" = some (.str "string") → toTsTypePrim v = "string") ∧
      (getField v "type" = some (.str "boolean") → toTsTypePrim v = "boolean") ∧
      (∀ t, getField v "type" = t →
        t ≠ some (.str "integer") → t ≠ some (.str "number") → t ≠ some (.str "string") →
        t ≠ some (.str "boolean") → toTsTypePrim v = "any") := by
    refine ⟨fun h => by simp [toTsTypePrim, h], fun h => by simp [toTsTypePrim, h],
      fun h => by simp [toTsTypePrim, h], fun h => by simp [toTsTypePrim, h], ?_⟩
    intro t ht hn1 hn2 hn3 hn4
    rw [toTsTypePrim, ht]
    cases t with
    | none => rfl
    | some w =>
      cases w with
      | str u =>
        by_cases e1 : u = "integer"
        · exact absurd (by rw [e1]) hn1
        · by_cases e2 : u = "number"
          · exact absurd (by rw [e2]) hn2
          · by_cases e3 : u = "string"
            · exact absurd (by rw [e3]) hn3
            · by_cases e4 : u = "boolean"
              · exact absurd (by rw [e4]) hn4
              · simp [e1, e2, e3, e4]
      | null => rfl
      | undef => rfl
      | bool b => rfl
      | num m => rfl
      | arr l => rfl
      | obj o => rfl
  refine ⟨hswitch, htable.1, htable.2.1, htable.2.2.1, htable.2.2.2.1, htable.2.2.2.2, ?_⟩
  intro htruthy
  have henum : ∀ (e : Js) (es : List Js), getField v "enum" ≠ some (.arr (e :: es)) := by
    intro e es hc
    rw [isNonEmptyEnum, hc] at h2
    exact absurd h2 (by simp)
  have harr : getField v "type" ≠ some (.str "array") := by
    intro hc
    rw [typeIs, hc] at h3
    simp at h3
  simp only [getTypeFromSchema, htruthy, Bool.not_true, Bool.false_eq_true, if_false,
    h1, Bool.false_and]
  split
  · rename_i heq
    simp [toTsTypePrim, heq]
  · rename_i heq
    simp [toTsTypePrim, heq]
  · rename_i heq
    simp [toTsTypePrim, heq]
  · rename_i heq
    simp [toTsTypePrim, heq]
  · rename_i heq
    exact absurd heq harr
  · rename_i hopt hx1 hx2 hx3 hx4 hx5
    have hany : toTsTypePrim v = "any" := by
      rw [toTsTypePrim]
      split
      · rename_i ht; exact absurd ht (fun hc => hx1 hc)
      · rename_i ht; exact absurd ht (fun hc => hx2 hc)
      · rename_i ht; exact absurd ht (fun hc => hx3 hc)
      · rename_i ht; exact absurd ht (fun hc => hx4 hc)
      · rfl
    simp [hany]

/-- **C5 witness.** The amended mapping at a boolean-typed node. -/
theorem c5_primitive_mapping_witness :
    toTsType 2 (.obj []) (.obj [("type", .str "boolean")]) "X" emptyState =
      .ok ("boolean", emptyState) :=
  (c5_primitive_mapping 0 (.obj []) (.obj [("type", .str "boolean")]) none "X" emptyState
    rfl rfl rfl rfl rfl).1

/-- **C1 counterexample.** Two enum value lists that are equal up to
order — `[1, "1"]` and `["1", 1]` — get *different* canonical
signatures, because the sort key `String(value)` identifies the number
`1` and the string `"1"` while `JSON.stringify` distinguishes them; the
second synthesis therefore creates a second Declaration with a new name
instead of returning the first one. -/
theorem c1_enum_dedup_counterexample :
    ([Js.str "1", Js.num 1]).Perm [Js.num 1, Js.str "1"] ∧
    toTsType3 5 (.obj []) (.obj [("enum", .arr [.num 1, .str "1"])]) "colorA" emptyState3 =
      .ok ("ColorA",
        ⟨["ColorA"],
         [("ColorA", "export enum ColorA \x7b\n  _1 = 1,\n  _1_1 = \x271\x27\n\x7d")],
         ["export enum ColorA \x7b\n  _1 = 1,\n  _1_1 = \x271\x27\n\x7d"],
         [("[1,\"1\"]", "ColorA")]⟩) ∧
    toTsType3 5 (.obj []) (.obj [("enum", .arr [.str "1", .num 1])]) "colorB"
      ⟨["ColorA"],
       [("ColorA", "export enum ColorA \x7b\n  _1 = 1,\n  _1_1 = \x271\x27\n\x7d")],
       ["export enum ColorA \x7b\n  _1 = 1,\n  _1_1 = \x271\x27\n\x7d"],
       [("[1,\"1\"]", "ColorA")]⟩ =
      .ok ("ColorB",
        ⟨["ColorA", "ColorB"],
         [("ColorA", "export enum ColorA \x7b\n  _1 = 1,\n  _1_1 = \x271\x27\n\x7d"),
          ("ColorB", "export enum ColorB \x7b\n  _1 = \x271\x27,\n  _1_1 = 1\n\x7d")],
         ["export enum ColorA \x7b\n  _1 = 1,\n  _1_1 = \x271\x27\n\x7d",
          "export enum ColorB \x7b\n  _1 = \x271\x27,\n  _1_1 = 1\n\x7d"],
         [("[1,\"1\"]", "ColorA"), ("[\"1\",1]", "ColorB")]⟩) ∧
    ("ColorB" : String) ≠ "ColorA" :=
  ⟨List.Perm.swap _ _ _, rfl, rfl, by decide⟩

/-- **C1 (amended).** For two enumeration schemas whose value lists are
equal up to order *and whose distinct values have distinct string
representations* (the sort key), synthesizing both produces a single
Declaration: the first call creates it and records the canonical hash,
and the second call finds the hash in `enumValueHashToTypeName` and
returns the first call's name with the state unchanged. -/
theorem c1_enum_dedup_amended (fuel : Nat) (n1 n2 : String) (spec : Js) (s0 : GenState3)
    (e : Js) (es : List Js) (v2 : List Js) (p1 : String)
    (hperm : v2.Perm (e :: es))
    (hinj : ∀ a ∈ e :: es, ∀ b ∈ e :: es, jsToString a = jsToString b → a = b)
    (hclean : ∀ v ∈ e :: es, v ≠ Js.null ∧ v ≠ Js.undef)
    (hmap : s0.enumMap.lookup (getEnumValuesHash (e :: es)) = none)
    (hp1 : toPascalCase n1 = .ok p1)
    (hseen : s0.seen.contains p1 = false) :
    ∃ code s1,
      toTsType3 (fuel + 2) spec (.obj [("enum", .arr (e :: es))]) n1 s0 = .ok (p1, s1) ∧
      s1.defs = s0.defs ++ [(p1, code)] ∧
      toTsType3 (fuel + 2) spec (.obj [("enum", .arr v2)]) n2 s1 = .ok (p1, s1) := by
  have hgf : getField (.obj [("enum", .arr (e :: es))]) "enum" = some (.arr (e :: es)) := rfl
  obtain ⟨code, hcode⟩ :=
    generateEnum_isOk p1 (.obj [("enum", .arr (e :: es))]) true (e :: es) hgf (by simp) hclean
  obtain ⟨e2, es2, hv2⟩ : ∃ e2 es2, v2 = e2 :: es2 := by
    cases v2 with
    | nil => exact absurd hperm.nil_eq (by simp)
    | cons a t => exact ⟨a, t, rfl⟩
  subst hv2
  have hhash : getEnumValuesHash (e2 :: es2) = getEnumValuesHash (e :: es) :=
    getEnumValuesHash_perm hperm hinj
  have hgen : generateInterface3 (fuel + 1) spec p1 (.obj [("enum", .arr (e :: es))]) true
      { s0 with seen := s0.seen ++ [p1] } =
      .ok (code, { s0 with seen := s0.seen ++ [p1] }) := by
    have htr : jsTruthy (Js.obj [("enum", Js.arr (e :: es))]) = true := rfl
    have hprops : jsTruthyOpt (getField (Js.obj [("enum", Js.arr (e :: es))]) "properties") =
        false := rfl
    have htype : jsTruthyOpt (getField (Js.obj [("enum", Js.arr (e :: es))]) "type") =
        false := rfl
    have hen : jsTruthyOpt (getField (Js.obj [("enum", Js.arr (e :: es))]) "enum") = true := rfl
    have hnen : isNonEmptyEnum (Js.obj [("enum", Js.arr (e :: es))]) = true := rfl
    simp only [generateInterface3, htr, hprops, htype, hen, hnen, Bool.not_true, Bool.not_false,
      Bool.and_false, Bool.and_true, Bool.or_false, Bool.false_eq_true, if_false, if_true,
      hcode, exceptBind_ok, exceptPure_eq_ok]
  refine ⟨code,
    ⟨s0.seen ++ [p1], s0.defs ++ [(p1, code)], s0.nested ++ [code],
      mapSet s0.enumMap (getEnumValuesHash (e :: es)) p1⟩, ?_, rfl, ?_⟩
  · have hrf : jsTruthyOpt (getField (Js.obj [("enum", Js.arr (e :: es))]) "$ref") = false := rfl
    simp only [toTsType3, hrf, Bool.false_eq_true, if_false, hgf, hmap, hp1, exceptBind_ok,
      hseen, if_false, hgen, exceptPure_eq_ok]
  · have hlook :
        (mapSet s0.enumMap (getEnumValuesHash (e :: es)) p1).lookup
          (getEnumValuesHash (e2 :: es2)) = some p1 := by
      rw [hhash]
      exact lookup_mapSet_self s0.enumMap _ p1
    have hrf2 : jsTruthyOpt (getField (Js.obj [("enum", Js.arr (e2 :: es2))]) "$ref") =
        false := rfl
    have hgf2 : getField (Js.obj [("enum", Js.arr (e2 :: es2))]) "enum" =
        some (.arr (e2 :: es2)) := rfl
    simp only [toTsType3, hrf2, Bool.false_eq_true, if_false, hgf2, hlook, exceptPure_eq_ok]

/-- **C1 witness.** The amended dedup at the concrete lists
`["RED","GREEN"]` and `["GREEN","RED"]`. -/
theorem c1_enum_dedup_amended_witness :
    ∃ code s1,
      toTsType3 2 (.obj []) (.obj [("enum", .arr [.str "RED", .str "GREEN"])]) "color"
        emptyState3 = .ok ("Color", s1) ∧
      s1.defs = emptyState3.defs ++ [("Color", code)] ∧
      toTsType3 2 (.obj []) (.obj [("enum", .arr [.str "GREEN", .str "RED"])]) "shade" s1 =
        .ok ("Color", s1) :=
  c1_enum_dedup_amended 0 "color" "shade" (.obj []) emptyState3
    (.str "RED") [.str "GREEN"] [.str "GREEN", .str "RED"] "Color"
    (List.Perm.swap _ _ _)
    (by
      intro a ha b hb hab
      fin_cases ha <;> fin_cases hb <;> first | rfl | (exact absurd hab (by decide)))
    (by
      intro v hv
      fin_cases hv <;>
        exact ⟨fun h => Js.noConfusion h, fun h => Js.noConfusion h⟩)
    rfl rfl rfl

theorem lookup_perm : ∀ {p1 p2 : List (String × String)}, p1.Perm p2 →
    (p1.map Prod.fst).Nodup → ∀ k, List.lookup k p1 = List.lookup k p2 := by
  intro p1 p2 h
  induction h with
  | nil => intro _ _; rfl
  | cons x h ih =>
    intro hnd k
    obtain ⟨xk, xv⟩ := x
    rw [List.lookup_cons, List.lookup_cons]
    cases hx : k == xk
    · have := ih (by simpa using (List.nodup_cons.mp (by simpa using hnd)).2) k
      simp only [this]
    · rfl
  | swap x y l =>
    intro hnd k
    obtain ⟨xk, xv⟩ := x
    obtain ⟨yk, yv⟩ := y
    have hnd' : (yk :: xk :: l.map Prod.fst).Nodup := by simpa using hnd
    have hne : yk ≠ xk := by
      have := (List.nodup_cons.mp hnd').1
      exact fun hc => this (by rw [hc]; exact List.mem_cons_self _ _)
    rw [List.lookup_cons, List.lookup_cons, List.lookup_cons, List.lookup_cons]
    cases hy : k == yk <;> cases hx : k == xk <;>
      first
        | rfl
        | exact absurd ((eq_of_beq hy).symm.trans (eq_of_beq hx)) hne
  | trans h1 h2 ih1 ih2 =>
    intro hnd k
    rw [ih1 hnd k, ih2 (((h1.map Prod.fst).nodup_iff).mp hnd) k]

theorem createParamSignature_perm {p1 p2 : List (String × String)} (h : p1.Perm p2)
    (hnd : (p1.map Prod.fst).Nodup) :
    createParamSignature p1 = createParamSignature p2 := by
  have hkeys : List.insertionSort (fun a b => strLe a b) (p1.map Prod.fst) =
      List.insertionSort (fun a b => strLe a b) (p2.map Prod.fst) :=
    List.eq_of_perm_of_sorted
      ((List.perm_insertionSort _ _).trans
        ((h.map Prod.fst).trans (List.perm_insertionSort _ _).symm))
      (List.sorted_insertionSort _ _) (List.sorted_insertionSort _ _)
  have hfun : (fun key => key ++ ":" ++ lookupParam p1 key) =
      (fun key => key ++ ":" ++ lookupParam p2 key) := by
    funext k
    unfold lookupParam
    rw [lookup_perm h hnd k]
  unfold createParamSignature
  rw [hkeys, hfun]

/-- The registry invariant around one signature: the pair `(N, sig)` is
present and every entry holding `sig` is named `N`. -/
def SigInv (m : List (String × String)) (N sig : String) : Prop :=
  (N, sig) ∈ m ∧ ∀ e ∈ m, e.2 = sig → e.1 = N

theorem registry_step {m m' : List (String × String)} {N sig n' : String}
    (r : ParamRequest)
    (hInv : SigInv m N sig)
    (hno : ∀ nm, freshParamTypeName r.params r.paramType r.fallbackName = .ok nm → nm ≠ N)
    (hcall : getReusableParamTypeName r.params r.paramType r.fallbackName m = .ok (n', m')) :
    SigInv m' N sig := by
  simp only [getReusableParamTypeName] at hcall
  cases hf : m.find? (fun e => e.2 == createParamSignature r.params) with
  | some e =>
    rw [hf] at hcall
    simp only [exceptPure_eq_ok] at hcall
    injection hcall with hpair
    have hm : m' = m := (congrArg Prod.snd hpair).symm
    rw [hm]
    exact hInv
  | none =>
    rw [hf] at hcall
    cases hfr : freshParamTypeName r.params r.paramType r.fallbackName with
    | error err =>
      rw [hfr] at hcall
      exact absurd hcall (by simp [Bind.bind, Except.bind])
    | ok nm =>
      rw [hfr] at hcall
      simp only [exceptBind_ok, exceptPure_eq_ok] at hcall
      injection hcall with hpair
      have hm : m' = mapSet m nm (createParamSignature r.params) := (congrArg Prod.snd hpair).symm
      have hsigne : sig ≠ createParamSignature r.params := by
        intro hc
        have := List.find?_eq_none.mp hf (N, sig) hInv.1
        simp [hc] at this
      have hnm : nm ≠ N := hno nm hfr
      constructor
      · rw [hm]
        exact mem_mapSet_of_ne _ _ hInv.1 (by simpa using fun hc => hnm hc.symm)
      · intro e he hesig
        rw [hm] at he
        rcases mem_mapSet he with h1 | h1
        · exfalso
          apply hsigne
          rw [← hesig, h1]
        · exact hInv.2 e h1 hesig

theorem registry_run {N sig : String} : ∀ (rs : List ParamRequest)
    {m m' : List (String × String)}, runParamCalls rs m = .ok m' →
    SigInv m N sig →
    (∀ r ∈ rs, ∀ nm, freshParamTypeName r.params r.paramType r.fallbackName = .ok nm → nm ≠ N) →
    SigInv m' N sig
  | [], m, m', hrun, hInv, _ => by
    simp only [runParamCalls] at hrun
    injection hrun with h
    rw [← h]
    exact hInv
  | r :: rs, m, m', hrun, hInv, hno => by
    simp only [runParamCalls] at hrun
    cases hc : getReusableParamTypeName r.params r.paramType r.fallbackName m with
    | error e =>
      rw [hc] at hrun
      exact absurd hrun (by simp [Bind.bind, Except.bind])
    | ok res =>
      rw [hc] at hrun
      simp only [exceptBind_ok] at hrun
      exact registry_run rs hrun
        (registry_step r hInv (hno r (List.mem_cons_self r rs)) (by rw [hc]))
        (fun q hq => hno q (List.mem_cons_of_mem r hq))

/-- **C2 counterexample.** The registry map is keyed by *name*, not by
signature, so an intervening operation whose computed name collides with
an earlier entry overwrites that entry's signature: the four-parameter
set `limit/offset/sort/filter` first gets its fallback name, an
unrelated two-parameter operation `{list, users}` then reuses the same
composite name `ListUsersQueryParams`, and a later call with exactly the
same four (key, type) pairs no longer finds its signature and gets a
different name. -/
theorem c2_param_dedup_counterexample :
    getReusableParamTypeName
        [("limit", "number"), ("offset", "number"), ("sort", "string"), ("filter", "string")]
        "query" "ListUsersQueryParams" [] =
      .ok ("ListUsersQueryParams",
        [("ListUsersQueryParams", "filter:string|limit:number|offset:number|sort:string")]) ∧
    getReusableParamTypeName [("list", "string"), ("users", "string")] "query" "XQueryParams"
        [("ListUsersQueryParams", "filter:string|limit:number|offset:number|sort:string")] =
      .ok ("ListUsersQueryParams", [("ListUsersQueryParams", "list:string|users:string")]) ∧
    getReusableParamTypeName
        [("limit", "number"), ("offset", "number"), ("sort", "string"), ("filter", "string")]
        "query" "ExportUsersQueryParams" [("ListUsersQueryParams", "list:string|users:string")] =
      .ok ("ExportUsersQueryParams",
        [("ListUsersQueryParams", "list:string|users:string"),
         ("ExportUsersQueryParams", "filter:string|limit:number|offset:number|sort:string")]) ∧
    ("ExportUsersQueryParams" : String) ≠ "ListUsersQueryParams" :=
  ⟨rfl, rfl, rfl, by decide⟩

/-- **C2 (amended).** For parameter mappings with the same (key, type)
pairs in any key order, `getReusableParamTypeName` returns the same
type name for both — across unrelated operations — *provided no
intervening call creates an entry under that same type name with a
different signature* (which would overwrite the name-keyed map entry).
`GoodMap` holds for any map the registry built from scratch. -/
theorem c2_param_dedup_amended
    (P1 P2 : List (String × String)) (cat1 cat2 fb1 fb2 : String)
    (m0 m1 m2 : List (String × String)) (N : String) (rs : List ParamRequest)
    (hgood : GoodMap m0)
    (hperm : P2.Perm P1)
    (hkeys : (P1.map Prod.fst).Nodup)
    (h1 : getReusableParamTypeName P1 cat1 fb1 m0 = .ok (N, m1))
    (hrun : runParamCalls rs m1 = .ok m2)
    (hno : ∀ r ∈ rs, ∀ nm,
      freshParamTypeName r.params r.paramType r.fallbackName = .ok nm → nm ≠ N) :
    getReusableParamTypeName P2 cat2 fb2 m2 = .ok (N, m2) := by
  have hsig : createParamSignature P2 = createParamSignature P1 :=
    createParamSignature_perm hperm (((hperm.map Prod.fst).nodup_iff).mpr hkeys)
  have hInv1 : SigInv m1 N (createParamSignature P1) := by
    simp only [getReusableParamTypeName] at h1
    cases hf : m0.find? (fun e => e.2 == createParamSignature P1) with
    | some e =>
      rw [hf] at h1
      simp only [exceptPure_eq_ok] at h1
      injection h1 with hpair
      have hm : m1 = m0 := (congrArg Prod.snd hpair).symm
      have hN : e.1 = N := congrArg Prod.fst hpair
      have hmem : e ∈ m0 := List.mem_of_find?_eq_some hf
      have hesig : e.2 = createParamSignature P1 := by
        have := List.find?_some hf
        simpa using this
      constructor
      · rw [hm, ← hN, ← hesig]
        exact hmem
      · intro e' he' hsig'
        rw [hm] at he'
        rw [← hN]
        exact hgood e' he' e hmem (hsig'.trans hesig.symm)
    | none =>
      rw [hf] at h1
      cases hfr : freshParamTypeName P1 cat1 fb1 with
      | error err =>
        rw [hfr] at h1
        exact absurd h1 (by simp [Bind.bind, Except.bind])
      | ok nm =>
        rw [hfr] at h1
        simp only [exceptBind_ok, exceptPure_eq_ok] at h1
        injection h1 with hpair
        have hm : m1 = mapSet m0 nm (createParamSignature P1) :=
          (congrArg Prod.snd hpair).symm
        have hN : nm = N := congrArg Prod.fst hpair
        constructor
        · rw [hm, ← hN]
          exact mem_mapSet_self m0 nm _
        · intro e he hesig
          rw [hm] at he
          rcases mem_mapSet he with hcase | hcase
          · rw [hcase, ← hN]
          · exfalso
            have := List.find?_eq_none.mp hf e hcase
            simp [hesig] at this
  have hInv2 : SigInv m2 N (createParamSignature P1) := registry_run rs hrun hInv1 hno
  simp only [getReusableParamTypeName]
  rw [hsig]
  cases hf : m2.find? (fun e => e.2 == createParamSignature P1) with
  | none =>
    exfalso
    have := List.find?_eq_none.mp hf (N, createParamSignature P1) hInv2.1
    simp at this
  | some e =>
    have hmem : e ∈ m2 := List.mem_of_find?_eq_some hf
    have hesig : e.2 = createParamSignature P1 := by
      have := List.find?_some hf
      simpa using this
    have hN : e.1 = N := hInv2.2 e hmem hesig
    simp only [exceptPure_eq_ok, hN]

/-- **C2 witness.** Two operations with the single path parameter
`id: string` (in the only possible order) resolve to the shared name
`IdPathParams`, with an unrelated operation's call in between. -/
theorem c2_param_dedup_amended_witness :
    getReusableParamTypeName [("id", "string")] "path" "GetItemPathParams"
        [("IdPathParams", "id:string"), ("NameQueryParams", "name:string")] =
      .ok ("IdPathParams",
        [("IdPathParams", "id:string"), ("NameQueryParams", "name:string")]) :=
  c2_param_dedup_amended [("id", "string")] [("id", "string")] "path" "path"
    "GetUserPathParams" "GetItemPathParams" [] [("IdPathParams", "id:string")]
    [("IdPathParams", "id:string"), ("NameQueryParams", "name:string")]
    "IdPathParams" [⟨[("name", "string")], "query", "FindQueryParams"⟩]
    (by intro e he; simp at he)
    (List.Perm.refl _) (by simp)
    rfl rfl
    (by
      intro r hr nm hnm
      simp at hr
      rw [hr] at hnm
      have : nm = "NameQueryParams" := by
        injection hnm with h
        exact h.symm
      rw [this]
      decide)

theorem generateModelFilesLoop_spec (allTypeNames : List String) :
    ∀ (ts : List String) (generated : List String),
    (∀ f ∈ (generateModelFilesLoop allTypeNames ts generated).1,
      (∀ d ∈ f.imports, d ∈ allTypeNames) ∧
      f.imports.Sorted (fun a b => strLe a b = true) ∧
      ∃ body, f.content = renderModelFile f.name f.imports body) ∧
    (generateModelFilesLoop allTypeNames ts generated).2 =
      ((generateModelFilesLoop allTypeNames ts generated).1.map ModelFile.name) ∧
    (generateModelFilesLoop allTypeNames ts generated).2.Nodup ∧
    (∀ n ∈ (generateModelFilesLoop allTypeNames ts generated).2, n ∉ generated)
  | [], generated => by
    simp [generateModelFilesLoop]
  | typeCode :: rest, generated => by
    cases hdecl : firstDeclName typeCode.data with
    | none =>
      have hstep : generateModelFilesLoop allTypeNames (typeCode :: rest) generated =
          generateModelFilesLoop allTypeNames rest generated := by
        simp only [generateModelFilesLoop, hdecl]
      rw [hstep]
      exact generateModelFilesLoop_spec allTypeNames rest generated
    | some typeName =>
      by_cases hgen : generated.contains typeName
      · have hstep : generateModelFilesLoop allTypeNames (typeCode :: rest) generated =
            generateModelFilesLoop allTypeNames rest generated := by
          simp only [generateModelFilesLoop, hdecl, hgen, if_true]
        rw [hstep]
        exact generateModelFilesLoop_spec allTypeNames rest generated
      · have hgenF : generated.contains typeName = false := by
          cases hc : generated.contains typeName
          · rfl
          · exact absurd hc hgen
        have hstep : generateModelFilesLoop allTypeNames (typeCode :: rest) generated =
            (⟨typeName,
              List.insertionSort (fun a b => strLe a b)
                ((extractTypeDependencies (ensureExported typeCode)).filter
                  fun dep => allTypeNames.contains dep),
              renderModelFile typeName
                (List.insertionSort (fun a b => strLe a b)
                  ((extractTypeDependencies (ensureExported typeCode)).filter
                    fun dep => allTypeNames.contains dep))
                (ensureExported typeCode)⟩ ::
              (generateModelFilesLoop allTypeNames rest (generated ++ [typeName])).1,
             typeName ::
              (generateModelFilesLoop allTypeNames rest (generated ++ [typeName])).2) := by
          simp only [generateModelFilesLoop, hdecl, hgenF, Bool.false_eq_true, if_false]
        obtain ⟨ihf, ihexp, ihnd, ihfresh⟩ :=
          generateModelFilesLoop_spec allTypeNames rest (generated ++ [typeName])
        rw [hstep]
        refine ⟨?_, ?_, ?_, ?_⟩
        · intro f hf
          rcases List.mem_cons.mp hf with h1 | h1
          · subst h1
            refine ⟨?_, List.sorted_insertionSort _ _, ⟨ensureExported typeCode, rfl⟩⟩
            intro d hd
            have hd1 := (List.mem_insertionSort _).mp hd
            have hd2 := (List.mem_filter.mp hd1).2
            simpa using hd2
          · exact ihf f h1
        · simp only [List.map_cons]
          rw [ihexp]
        · refine List.nodup_cons.mpr ⟨?_, ihnd⟩
          intro hmem
          exact ihfresh typeName hmem (by simp)
        · intro n hn
          rcases List.mem_cons.mp hn with h1 | h1
          · rw [h1]
            simpa using hgenF
          · intro hmem
            exact ihfresh n h1 (by simp [hmem])

/-- **C9.** For every input set of declarations, each emitted file list
of imports contains only names of declarations present in the full set
(lexically extracted tokens outside the set, including primitive/library
names, are dropped by the filter), the imports are sorted and placed
ahead of the declaration body, and the index file re-exports every
emitted declaration name exactly once, in sorted order. -/
theorem c9_model_file_emission (allTypes : List String) :
    (∀ f ∈ (generateModelFiles allTypes).1,
      (∀ d ∈ f.imports, d ∈ allDeclNames allTypes) ∧
      f.imports.Sorted (fun a b => strLe a b = true) ∧
      ∃ body, f.content = renderModelFile f.name f.imports body) ∧
    (match (generateModelFiles allTypes).2 with
     | none => allTypes = []
     | some idx =>
       ∃ names : List String,
         idx = String.intercalate "\n" ([FILE_HEADERS_MODELS_INDEX, ""] ++
           names.map fun typeName =>
             "export \x7b " ++ typeName ++ " \x7d from \x27./" ++ typeName ++ "\x27;") ∧
         names.Sorted (fun a b => strLe a b = true) ∧ names.Nodup ∧
         ∀ n, n ∈ names ↔ n ∈ (generateModelFiles allTypes).1.map ModelFile.name) := by
  by_cases hempty : allTypes.isEmpty
  · have : allTypes = [] := by
      cases allTypes
      · rfl
      · exact absurd hempty (by simp)
    subst this
    exact ⟨by simp [generateModelFiles], by simp [generateModelFiles]⟩
  · have hemptyF : allTypes.isEmpty = false := by
      cases hc : allTypes.isEmpty
      · rfl
      · exact absurd hc hempty
    obtain ⟨hf, hexp, hnd, _⟩ :=
      generateModelFilesLoop_spec (allDeclNames allTypes) allTypes []
    have hdef : generateModelFiles allTypes =
        ((generateModelFilesLoop (allDeclNames allTypes) allTypes []).1,
         some (String.intercalate "\n"
           ([FILE_HEADERS_MODELS_INDEX, ""] ++
            ((List.insertionSort (fun a b => strLe a b)
              (generateModelFilesLoop (allDeclNames allTypes) allTypes []).2).map
                fun typeName =>
                  "export \x7b " ++ typeName ++ " \x7d from \x27./" ++ typeName ++ "\x27;")))) := by
      simp only [generateModelFiles, hemptyF, Bool.false_eq_true, if_false]
    rw [hdef]
    refine ⟨hf, ⟨List.insertionSort (fun a b => strLe a b)
      (generateModelFilesLoop (allDeclNames allTypes) allTypes []).2, rfl,
      List.sorted_insertionSort _ _, ?_, ?_⟩⟩
    · exact ((List.perm_insertionSort _ _).nodup_iff).mpr hnd
    · intro n
      rw [← hexp]
      exact ⟨fun h => (List.mem_insertionSort _).mp h,
        fun h => (List.mem_insertionSort _).mpr h⟩

/-- **C9 witness.** In a two-declaration set where `B` references `A`,
the emitted `B` file imports `A`, and `A` is indeed a declaration name
of the full set. -/
theorem c9_model_file_emission_witness :
    ("A" : String) ∈ allDeclNames
      ["export interface B \x7b\n  a?: A;\n\x7d", "export interface A \x7b\n  b?: B;\n\x7d"] :=
  ((c9_model_file_emission
      ["export interface B \x7b\n  a?: A;\n\x7d", "export interface A \x7b\n  b?: B;\n\x7d"]).1
    ⟨"B", ["A"],
      "// Generated model for B\n\nimport \x7b A \x7d from \x27./A\x27;\n\nexport interface B \x7b\n  a?: A;\n\x7d"⟩
    (by exact List.mem_cons_self _ _)).1 "A" (by exact List.mem_cons_self _ _)

theorem str_data_ext {s t : String} (h : s.data = t.data) : s = t := by
  cases s
  cases t
  exact congrArg String.mk h

theorem ofChars_data (s : String) : ofChars s.data = s := by
  cases s
  rfl

theorem splitOnChar_noSep : ∀ {l : List Char}, '/' ∉ l → splitOnChar '/' l = [l]
  | [], _ => rfl
  | c :: cs, h => by
    have hc : c ≠ '/' := fun hc => h (by rw [hc]; exact List.mem_cons_self _ _)
    have ih := splitOnChar_noSep (fun hm => h (List.mem_cons_of_mem c hm))
    simp only [splitOnChar, if_neg hc, ih]

theorem splitOnChar_append_sep : ∀ {l1 : List Char} (l2 : List Char), '/' ∉ l1 →
    splitOnChar '/' (l1 ++ '/' :: l2) = l1 :: splitOnChar '/' l2
  | [], l2, _ => by simp [splitOnChar]
  | c :: cs, l2, h => by
    have hc : c ≠ '/' := fun hc => h (by rw [hc]; exact List.mem_cons_self _ _)
    have ih := splitOnChar_append_sep l2 (fun hm => h (List.mem_cons_of_mem c hm))
    simp only [List.cons_append, splitOnChar, if_neg hc]
    rw [show cs.append ('/' :: l2) = cs ++ '/' :: l2 from rfl, ih]

/-- Splitting `components/schemas/x` (with `x` slash-free). -/
theorem split_components_schemas (x : String) (hx : '/' ∉ x.data) :
    splitOnChar '/' ("components/schemas/".data ++ x.data) =
      ["components".data, "schemas".data, x.data] := by
  have h1 : "components/schemas/".data ++ x.data =
      "components".data ++ '/' :: ("schemas".data ++ '/' :: x.data) := rfl
  rw [h1, splitOnChar_append_sep _ (by decide), splitOnChar_append_sep _ (by decide),
    splitOnChar_noSep hx]

/-- Resolution of `#/components/schemas/x` in a cycle document at key
`x` (string machinery around the concrete prefix). -/
theorem resolveRef_schemaKey (x : String) (hx : '/' ∉ x.data) (doc : Js) :
    resolveRef ("#/components/schemas/" ++ x) doc =
      match walkParts ["components", "schemas", x] doc with
      | some v => .ok v
      | none => .error ("Unable to resolve $ref: " ++ ("#/components/schemas/" ++ x)) := by
  have hdata : ("#/components/schemas/" ++ x).data =
      "#/components/schemas/".data ++ x.data := String.data_append _ _
  have hempty : ("#/components/schemas/" ++ x).data.isEmpty = false := by
    rw [hdata]; rfl
  have hstart : startsWithHashSlash ("#/components/schemas/" ++ x).data = true := by
    rw [hdata]; rfl
  have hstrip : stripHashSlash ("#/components/schemas/" ++ x).data =
      "components/schemas/".data ++ x.data := by
    rw [hdata]; rfl
  have hparts : (splitOnChar '/' (stripHashSlash ("#/components/schemas/" ++ x).data)).map
      ofChars = ["components", "schemas", x] := by
    rw [hstrip, split_components_schemas x hx]
    simp only [List.map_cons, List.map_nil]
    rw [ofChars_data]
    rfl
  simp only [resolveRef, hempty, Bool.false_eq_true, if_false, hstart, Bool.not_true, hparts]

/-- Name extraction from `#/components/schemas/x`. -/
theorem getSchemaNameFromRef_schemaKey (x : String) (hx : '/' ∉ x.data) (hne : x ≠ "") :
    getSchemaNameFromRef ("#/components/schemas/" ++ x) = .ok x := by
  have hdata : ("#/components/schemas/" ++ x).data =
      "#/components/schemas/".data ++ x.data := String.data_append _ _
  have hempty : ("#/components/schemas/" ++ x).data.isEmpty = false := by
    rw [hdata]; rfl
  have hsplit : splitOnChar '/' ("#/components/schemas/" ++ x).data =
      ["#".data, "components".data, "schemas".data, x.data] := by
    rw [hdata]
    have h1 : "#/components/schemas/".data ++ x.data =
        "#".data ++ '/' :: ("components".data ++ '/' :: ("schemas".data ++ '/' :: x.data)) := rfl
    rw [h1, splitOnChar_append_sep _ (by decide), splitOnChar_append_sep _ (by decide),
      splitOnChar_append_sep _ (by decide), splitOnChar_noSep hx]
  have hxd : x.data ≠ [] := by
    intro hc
    apply hne
    cases x
    exact congrArg String.mk hc
  have hxe : x.data.isEmpty = false := by
    cases hd : x.data
    · exact absurd hd hxd
    · rfl
  have hlast : (splitOnChar '/' ("#/components/schemas/" ++ x).data).getLastD [] = x.data := by
    rw [hsplit]; rfl
  have hlastne : ((splitOnChar '/' ("#/components/schemas/" ++ x).data).getLastD []).isEmpty =
      false := by
    rw [hlast]
    cases hd : x.data
    · exact absurd hd hxd
    · rfl
  simp only [getSchemaNameFromRef, hempty, Bool.false_eq_true, if_false, hlastne, hlast,
    ofChars_data, hxe]

/-- Helper for nonempty strings: the character buffer is nonempty. -/
theorem data_isEmpty_false {s : String} (h : s ≠ "") : s.data.isEmpty = false := by
  cases s with
  | mk l =>
    cases l with
    | nil => exact absurd rfl h
    | cons c cs => rfl

/-- The interface body produced for a single-property schema whose
property points at another named type. -/
def ifaceBody (name prop target : String) : String :=
  "export interface " ++ name ++ " \x7b\n  " ++ prop ++ "?: " ++ target ++ ";\n\x7d"

theorem intercalate_three (x y z : String) :
    String.intercalate "\n" [x, y, z] = x ++ "\n" ++ y ++ "\n" ++ z := rfl

/-- Resolution of schema `a` inside the cycle document. -/
theorem cycleDoc_resolve_a (a b p q : String) (hsa : '/' ∉ a.data) :
    resolveRef ("#/components/schemas/" ++ a) (cycleDoc a b p q) =
      .ok (.obj [("properties",
        .obj [(p, .obj [("$ref", .str ("#/components/schemas/" ++ b))])])]) := by
  rw [resolveRef_schemaKey a hsa (cycleDoc a b p q)]
  have hwalk : walkParts ["components", "schemas", a] (cycleDoc a b p q) =
      some (.obj [("properties",
        .obj [(p, .obj [("$ref", .str ("#/components/schemas/" ++ b))])])]) := by
    simp [walkParts, cycleDoc, getField, List.lookup]
  rw [hwalk]

/-- Resolution of schema `b` inside the cycle document. -/
theorem cycleDoc_resolve_b (a b p q : String) (hab : a ≠ b) (hsb : '/' ∉ b.data) :
    resolveRef ("#/components/schemas/" ++ b) (cycleDoc a b p q) =
      .ok (.obj [("properties",
        .obj [(q, .obj [("$ref", .str ("#/components/schemas/" ++ a))])])]) := by
  rw [resolveRef_schemaKey b hsb (cycleDoc a b p q)]
  have hba : (b == a) = false := beq_eq_false_iff_ne.mpr (Ne.symm hab)
  have hwalk : walkParts ["components", "schemas", b] (cycleDoc a b p q) =
      some (.obj [("properties",
        .obj [(q, .obj [("$ref", .str ("#/components/schemas/" ++ a))])])]) := by
    simp [walkParts, cycleDoc, getField, List.lookup, hba]
  rw [hwalk]

/-- C3: two schemas referencing each other through `$ref` are generated
exactly once each under the `globalSeenTypes` guard: resolving the cycle
terminates (for every sufficient fuel) with the referenced name as the
type string, both interface declarations recorded once in order, and
each body mentioning the other type by name. -/
theorem c3_recursive_refs (n : Nat) (a b p q nm : String) (hab : a ≠ b)
    (ha : a ≠ "") (hb : b ≠ "") (hp : p ≠ "") (hq : q ≠ "")
    (hsa : '/' ∉ a.data) (hsb : '/' ∉ b.data) :
    toTsType (n + 8) (cycleDoc a b p q)
      (.obj [("$ref", .str ("#/components/schemas/" ++ a))]) nm emptyState =
    .ok (a, ⟨[a, b],
      [(b, ifaceBody b q a), (a, ifaceBody a p b)],
      [ifaceBody b q a, ifaceBody a p b]⟩) := by
  have hab2 : (a == b) = false := beq_eq_false_iff_ne.mpr hab
  have hba2 : (b == a) = false := beq_eq_false_iff_ne.mpr (Ne.symm hab)
  have hrefA : ("#/components/schemas/" ++ a).data.isEmpty = false := by
    rw [String.data_append]; rfl
  have hrefB : ("#/components/schemas/" ++ b).data.isEmpty = false := by
    rw [String.data_append]; rfl
  have hResA := cycleDoc_resolve_a a b p q hsa
  have hResB := cycleDoc_resolve_b a b p q hab hsb
  have hNameA := getSchemaNameFromRef_schemaKey a hsa ha
  have hNameB := getSchemaNameFromRef_schemaKey b hsb hb
  have hPp : toPascalCase p =
      .ok (ofChars (pascalChars (p.data.map fun c => if isAsciiAlnum c then c else ' ') true)) := by
    simp [toPascalCase, data_isEmpty_false hp]
  have hPq : toPascalCase q =
      .ok (ofChars (pascalChars (q.data.map fun c => if isAsciiAlnum c then c else ' ') true)) := by
    simp [toPascalCase, data_isEmpty_false hq]
  have h1 : ∀ nm1 : String, toTsType (n + 2) (cycleDoc a b p q)
      (.obj [("$ref", .str ("#/components/schemas/" ++ a))]) nm1 ⟨[a, b], [], []⟩ =
      .ok (a, ⟨[a, b], [], []⟩) := by
    intro nm1
    show toTsType (n + 1 + 1) _ _ _ _ = _
    simp [toTsType, getField, List.lookup, jsTruthyOpt, jsTruthy, hrefA, hResA, hNameA,
      exceptBind_ok, exceptPure_eq_ok, List.contains, List.elem]
  have hnil2 : genProps (n + 2) (cycleDoc a b p q) b none [] ⟨[a, b], [], []⟩ =
      .ok ([], ⟨[a, b], [], []⟩) := by
    show genProps (n + 1 + 1) _ _ _ _ _ = _
    simp [genProps]
  have h2 : genProps (n + 3) (cycleDoc a b p q) b none
      [(q, .obj [("$ref", .str ("#/components/schemas/" ++ a))])] ⟨[a, b], [], []⟩ =
      .ok (["  " ++ q ++ "?" ++ ": " ++ a ++ ";"], ⟨[a, b], [], []⟩) := by
    show genProps (n + 2 + 1) _ _ _ _ _ = _
    simp [genProps, hPq, h1, hnil2, exceptBind_ok, exceptPure_eq_ok]
  have h3 : generateInterface (n + 4) (cycleDoc a b p q) b
      (.obj [("properties",
        .obj [(q, .obj [("$ref", .str ("#/components/schemas/" ++ a))])])]) true
      ⟨[a, b], [], []⟩ =
      .ok (String.intercalate "\n" ["export " ++ "interface " ++ b ++ " \x7b",
        "  " ++ q ++ "?" ++ ": " ++ a ++ ";", "\x7d"], ⟨[a, b], [], []⟩) := by
    show generateInterface (n + 3 + 1) _ _ _ _ _ = _
    simp [generateInterface, getField, List.lookup, jsTruthy, jsTruthyOpt, isNonEmptyEnum,
      typeIs, h2, exceptBind_ok, exceptPure_eq_ok]
  have h4 : ∀ nm1 : String, toTsType (n + 5) (cycleDoc a b p q)
      (.obj [("$ref", .str ("#/components/schemas/" ++ b))]) nm1 ⟨[a], [], []⟩ =
      .ok (b, ⟨[a, b],
        [(b, String.intercalate "\n" ["export " ++ "interface " ++ b ++ " \x7b",
          "  " ++ q ++ "?" ++ ": " ++ a ++ ";", "\x7d"])],
        [String.intercalate "\n" ["export " ++ "interface " ++ b ++ " \x7b",
          "  " ++ q ++ "?" ++ ": " ++ a ++ ";", "\x7d"]]⟩) := by
    intro nm1
    show toTsType (n + 4 + 1) _ _ _ _ = _
    simp [toTsType, getField, List.lookup, jsTruthyOpt, jsTruthy, hrefB, hResB, hNameB, h3,
      exceptBind_ok, exceptPure_eq_ok, List.contains, List.elem, hba2]
  have hnil5 : genProps (n + 5) (cycleDoc a b p q) a none []
      ⟨[a, b],
        [(b, String.intercalate "\n" ["export " ++ "interface " ++ b ++ " \x7b",
          "  " ++ q ++ "?" ++ ": " ++ a ++ ";", "\x7d"])],
        [String.intercalate "\n" ["export " ++ "interface " ++ b ++ " \x7b",
          "  " ++ q ++ "?" ++ ": " ++ a ++ ";", "\x7d"]]⟩ =
      .ok ([], ⟨[a, b],
        [(b, String.intercalate "\n" ["export " ++ "interface " ++ b ++ " \x7b",
          "  " ++ q ++ "?" ++ ": " ++ a ++ ";", "\x7d"])],
        [String.intercalate "\n" ["export " ++ "interface " ++ b ++ " \x7b",
          "  " ++ q ++ "?" ++ ": " ++ a ++ ";", "\x7d"]]⟩) := by
    show genProps (n + 4 + 1) _ _ _ _ _ = _
    simp [genProps]
  have h5 : genProps (n + 6) (cycleDoc a b p q) a none
      [(p, .obj [("$ref", .str ("#/components/schemas/" ++ b))])] ⟨[a], [], []⟩ =
      .ok (["  " ++ p ++ "?" ++ ": " ++ b ++ ";"],
        ⟨[a, b],
          [(b, String.intercalate "\n" ["export " ++ "interface " ++ b ++ " \x7b",
            "  " ++ q ++ "?" ++ ": " ++ a ++ ";", "\x7d"])],
          [String.intercalate "\n" ["export " ++ "interface " ++ b ++ " \x7b",
            "  " ++ q ++ "?" ++ ": " ++ a ++ ";", "\x7d"]]⟩) := by
    show genProps (n + 5 + 1) _ _ _ _ _ = _
    simp [genProps, hPp, h4, hnil5, exceptBind_ok, exceptPure_eq_ok]
  have h6 : generateInterface (n + 7) (cycleDoc a b p q) a
      (.obj [("properties",
        .obj [(p, .obj [("$ref", .str ("#/components/schemas/" ++ b))])])]) true
      ⟨[a], [], []⟩ =
      .ok (String.intercalate "\n" ["export " ++ "interface " ++ a ++ " \x7b",
        "  " ++ p ++ "?" ++ ": " ++ b ++ ";", "\x7d"],
        ⟨[a, b],
          [(b, String.intercalate "\n" ["export " ++ "interface " ++ b ++ " \x7b",
            "  " ++ q ++ "?" ++ ": " ++ a ++ ";", "\x7d"])],
          [String.intercalate "\n" ["export " ++ "interface " ++ b ++ " \x7b",
            "  " ++ q ++ "?" ++ ": " ++ a ++ ";", "\x7d"]]⟩) := by
    show generateInterface (n + 6 + 1) _ _ _ _ _ = _
    simp [generateInterface, getField, List.lookup, jsTruthy, jsTruthyOpt, isNonEmptyEnum,
      typeIs, h5, exceptBind_ok, exceptPure_eq_ok]
  show toTsType (n + 7 + 1) _ _ _ _ = _
  simp [toTsType, getField, List.lookup, jsTruthyOpt, jsTruthy, hrefA, hResA, hNameA, h6,
    exceptBind_ok, exceptPure_eq_ok, List.contains, List.elem, emptyState]
  constructor <;>
    (apply str_data_ext
     simp only [intercalate_three, ifaceBody, String.data_append, List.append_assoc]
     rfl)

/-- Closed instance of the cycle theorem at concrete names. -/
theorem c3_recursive_refs_witness :
    (("A" : String) ≠ "B") ∧
    toTsType 8 (cycleDoc "A" "B" "x" "y")
      (.obj [("$ref", .str ("#/components/schemas/" ++ "A"))]) "Root" emptyState =
    .ok ("A", ⟨["A", "B"],
      [("B", ifaceBody "B" "y" "A"), ("A", ifaceBody "A" "x" "B")],
      [ifaceBody "B" "y" "A", ifaceBody "A" "x" "B"]⟩) :=
  ⟨by decide, c3_recursive_refs 0 "A" "B" "x" "y" "Root" (by decide) (by decide) (by decide)
    (by decide) (by decide) (by decide) (by decide)⟩

/-- One synthesis step seen from a starting state: the uniqueness
invariant holds afterwards, the seen set only grows, and every newly
recorded declaration name was unseen at the start. -/
def SynthStep (s t : GenState) : Prop :=
  DefsInv t ∧ (∃ ext, t.seen = s.seen ++ ext) ∧
    ∃ new, t.defs = s.defs ++ new ∧ ∀ k ∈ new.map Prod.fst, k ∉ s.seen

theorem synthStep_refl {s : GenState} (h : DefsInv s) : SynthStep s s :=
  ⟨h, ⟨[], (List.append_nil _).symm⟩,
    ⟨[], (List.append_nil _).symm, by intro k hk; simp at hk⟩⟩

theorem synthStep_trans {s t u : GenState} (h1 : SynthStep s t) (h2 : SynthStep t u) :
    SynthStep s u := by
  obtain ⟨hi1, ⟨e1, he1⟩, ⟨n1, hn1, hk1⟩⟩ := h1
  obtain ⟨hi2, ⟨e2, he2⟩, ⟨n2, hn2, hk2⟩⟩ := h2
  refine ⟨hi2, ⟨e1 ++ e2, by rw [he2, he1, List.append_assoc]⟩,
    ⟨n1 ++ n2, by rw [hn2, hn1, List.append_assoc], ?_⟩⟩
  intro k hk
  rw [List.map_append, List.mem_append] at hk
  cases hk with
  | inl hmem => exact hk1 k hmem
  | inr hmem =>
    intro hks
    exact hk2 k hmem (he1 ▸ List.mem_append_left e1 hks)

theorem defsInv_extendSeen {s : GenState} (h : DefsInv s) (t : String) :
    DefsInv ⟨s.seen ++ [t], s.defs, s.nested⟩ :=
  ⟨h.1, fun k hk => List.mem_append_left _ (h.2 k hk)⟩

theorem exceptBind_eq_ok {α β : Type} {x : Except String α} {f : α → Except String β} {b : β}
    (h : (x >>= f) = .ok b) : ∃ a, x = .ok a ∧ f a = .ok b := by
  cases x with
  | error e => exact absurd h (by simp [Bind.bind, Except.bind])
  | ok a => exact ⟨a, rfl, h⟩

/-- The guarded-creation pattern of the interface generator: mark the
fresh name seen, run a recursive call, append the declaration. -/
theorem synthStep_create {s s2 : GenState} {tn code : String}
    (hs : DefsInv s) (hmem : ¬ s.seen.contains tn = true)
    (hstep : SynthStep ⟨s.seen ++ [tn], s.defs, s.nested⟩ s2) :
    SynthStep s ⟨s2.seen, s2.defs ++ [(tn, code)], s2.nested ++ [code]⟩ := by
  have ht : tn ∉ s.seen := fun hin => hmem (List.elem_iff.mpr hin)
  obtain ⟨⟨hnd2, hsub2⟩, ⟨e1, he1⟩, ⟨n1, hn1, hk1⟩⟩ := hstep
  have htInSeen : tn ∈ s2.seen := by
    rw [he1]
    exact List.mem_append_left _ (List.mem_append_right _ (List.mem_singleton.mpr rfl))
  have htNotKey : tn ∉ s2.defs.map Prod.fst := by
    rw [hn1, List.map_append, List.mem_append]
    rintro (hk | hk)
    · exact ht (hs.2 tn hk)
    · exact hk1 tn hk (List.mem_append_right _ (List.mem_singleton.mpr rfl))
  refine ⟨⟨?_, ?_⟩, ⟨[tn] ++ e1, by rw [he1, List.append_assoc]⟩,
    ⟨n1 ++ [(tn, code)], by rw [hn1, List.append_assoc], ?_⟩⟩
  · rw [List.map_append]
    rw [List.nodup_append]
    refine ⟨hnd2, List.nodup_singleton tn, ?_⟩
    intro k hk hk2
    rw [show (List.map Prod.fst [(tn, code)]) = [tn] from rfl, List.mem_singleton] at hk2
    exact htNotKey (hk2 ▸ hk)
  · intro k hk
    rw [List.map_append, List.mem_append] at hk
    cases hk with
    | inl hmem2 => exact hsub2 k hmem2
    | inr hmem2 =>
      rw [show (List.map Prod.fst [(tn, code)]) = [tn] from rfl, List.mem_singleton] at hmem2
      exact hmem2 ▸ htInSeen
  · intro k hk
    rw [List.map_append, List.mem_append] at hk
    cases hk with
    | inl hmem2 =>
      intro hks
      exact hk1 k hmem2 (List.mem_append_left _ hks)
    | inr hmem2 =>
      rw [show (List.map Prod.fst [(tn, code)]) = [tn] from rfl, List.mem_singleton] at hmem2
      exact hmem2 ▸ ht

/-- Every entry point of the type-synthesis mutual recursion preserves
the uniqueness invariant: starting from a state whose recorded names are
unique and seen, any successful call again satisfies it, only extends
the seen set, and only appends declarations whose names were unseen. -/
theorem synth_inv : ∀ fuel : Nat,
    (∀ spec v nm s r t, toTsType fuel spec v nm s = .ok (r, t) → DefsInv s → SynthStep s t) ∧
    (∀ spec v nm s r t,
      toTsTypeObjSwitch fuel spec v nm s = .ok (r, t) → DefsInv s → SynthStep s t) ∧
    (∀ spec name schema em s r t,
      generateInterface fuel spec name schema em s = .ok (r, t) → DefsInv s → SynthStep s t) ∧
    (∀ spec name reqOpt props s ls t,
      genProps fuel spec name reqOpt props s = .ok (ls, t) → DefsInv s → SynthStep s t) := by
  intro fuel
  induction fuel with
  | zero =>
    refine ⟨?_, ?_, ?_, ?_⟩
    · intro spec v nm s r t h _hs
      exact Except.noConfusion h
    · intro spec v nm s r t h _hs
      exact Except.noConfusion h
    · intro spec name schema em s r t h _hs
      exact Except.noConfusion h
    · intro spec name reqOpt props s ls t h _hs
      exact Except.noConfusion h
  | succ fuel ih =>
    obtain ⟨ihT, ihO, ihG, ihP⟩ := ih
    refine ⟨?_, ?_, ?_, ?_⟩
    · intro spec v nm s r t h hs
      simp only [toTsType] at h
      split at h
      · split at h
        · obtain ⟨ref, hres, h⟩ := exceptBind_eq_ok h
          split at h
          · obtain ⟨tn, hname, h⟩ := exceptBind_eq_ok h
            split at h
            · simp only [exceptPure_eq_ok, Except.ok.injEq, Prod.mk.injEq] at h
              obtain ⟨h1, h2⟩ := h
              subst h2
              exact synthStep_refl hs
            · rename_i hcont
              obtain ⟨cs, hgen, h⟩ := exceptBind_eq_ok h
              obtain ⟨code, s2⟩ := cs
              simp only [exceptPure_eq_ok, Except.ok.injEq, Prod.mk.injEq] at h
              obtain ⟨h1, h2⟩ := h
              subst h2
              exact synthStep_create hs hcont
                (ihG _ _ _ _ _ _ _ hgen (defsInv_extendSeen hs tn))
          · simp only [exceptPure_eq_ok, Except.ok.injEq, Prod.mk.injEq] at h
            obtain ⟨h1, h2⟩ := h
            subst h2
            exact synthStep_refl hs
        · exact Except.noConfusion h
      · split at h
        · obtain ⟨tn, hname, h⟩ := exceptBind_eq_ok h
          split at h
          · simp only [exceptPure_eq_ok, Except.ok.injEq, Prod.mk.injEq] at h
            obtain ⟨h1, h2⟩ := h
            subst h2
            exact synthStep_refl hs
          · rename_i hcont
            obtain ⟨cs, hgen, h⟩ := exceptBind_eq_ok h
            obtain ⟨code, s2⟩ := cs
            simp only [exceptPure_eq_ok, Except.ok.injEq, Prod.mk.injEq] at h
            obtain ⟨h1, h2⟩ := h
            subst h2
            exact synthStep_create hs hcont
              (ihG _ _ _ _ _ _ _ hgen (defsInv_extendSeen hs tn))
        · split at h
          · split at h
            · split at h
              · obtain ⟨ref, hres, h⟩ := exceptBind_eq_ok h
                split at h
                · obtain ⟨tn, hname, h⟩ := exceptBind_eq_ok h
                  split at h
                  · simp only [exceptPure_eq_ok, Except.ok.injEq, Prod.mk.injEq] at h
                    obtain ⟨h1, h2⟩ := h
                    subst h2
                    exact synthStep_refl hs
                  · rename_i hcont
                    obtain ⟨cs, hgen, h⟩ := exceptBind_eq_ok h
                    obtain ⟨code, s2⟩ := cs
                    simp only [exceptPure_eq_ok, Except.ok.injEq, Prod.mk.injEq] at h
                    obtain ⟨h1, h2⟩ := h
                    subst h2
                    exact synthStep_create hs hcont
                      (ihG _ _ _ _ _ _ _ hgen (defsInv_extendSeen hs tn))
                · exact ihO _ _ _ _ _ _ h hs
              · exact Except.noConfusion h
            · split at h
              · split at h
                · obtain ⟨tn, hname, h⟩ := exceptBind_eq_ok h
                  split at h
                  · simp only [exceptPure_eq_ok, Except.ok.injEq, Prod.mk.injEq] at h
                    obtain ⟨h1, h2⟩ := h
                    subst h2
                    exact synthStep_refl hs
                  · rename_i hcont
                    obtain ⟨cs, hgen, h⟩ := exceptBind_eq_ok h
                    obtain ⟨code, s2⟩ := cs
                    simp only [exceptPure_eq_ok, Except.ok.injEq, Prod.mk.injEq] at h
                    obtain ⟨h1, h2⟩ := h
                    subst h2
                    exact synthStep_create hs hcont
                      (ihG _ _ _ _ _ _ _ hgen (defsInv_extendSeen hs tn))
                · exact Except.noConfusion h
              · simp only [exceptPure_eq_ok, Except.ok.injEq, Prod.mk.injEq] at h
                obtain ⟨h1, h2⟩ := h
                subst h2
                exact synthStep_refl hs
          · exact ihO _ _ _ _ _ _ h hs
    · intro spec v nm s r t h hs
      simp only [toTsTypeObjSwitch] at h
      split at h
      · split at h
        · simp only [exceptPure_eq_ok, Except.ok.injEq, Prod.mk.injEq] at h
          obtain ⟨h1, h2⟩ := h
          subst h2
          exact synthStep_refl hs
        · obtain ⟨tn, hname, h⟩ := exceptBind_eq_ok h
          split at h
          · simp only [exceptPure_eq_ok, Except.ok.injEq, Prod.mk.injEq] at h
            obtain ⟨h1, h2⟩ := h
            subst h2
            exact synthStep_refl hs
          · rename_i hcont
            obtain ⟨cs, hgen, h⟩ := exceptBind_eq_ok h
            obtain ⟨code, s2⟩ := cs
            simp only [exceptPure_eq_ok, Except.ok.injEq, Prod.mk.injEq] at h
            obtain ⟨h1, h2⟩ := h
            subst h2
            exact synthStep_create hs hcont
              (ihG _ _ _ _ _ _ _ hgen (defsInv_extendSeen hs tn))
      · simp only [exceptPure_eq_ok, Except.ok.injEq, Prod.mk.injEq] at h
        obtain ⟨h1, h2⟩ := h
        subst h2
        exact synthStep_refl hs
    · intro spec name schema em s r t h hs
      simp only [generateInterface] at h
      split at h
      · simp only [exceptPure_eq_ok, Except.ok.injEq, Prod.mk.injEq] at h
        obtain ⟨h1, h2⟩ := h
        subst h2
        exact synthStep_refl hs
      · split at h
        · obtain ⟨code, henum, h⟩ := exceptBind_eq_ok h
          simp only [exceptPure_eq_ok, Except.ok.injEq, Prod.mk.injEq] at h
          obtain ⟨h1, h2⟩ := h
          subst h2
          exact synthStep_refl hs
        · split at h
          · obtain ⟨itemName, hiname, h⟩ := exceptBind_eq_ok h
            obtain ⟨isch, hisch, h⟩ := exceptBind_eq_ok h
            split at h
            · split at h
              · simp only [exceptPure_eq_ok, Except.ok.injEq, Prod.mk.injEq] at h
                obtain ⟨h1, h2⟩ := h
                subst h2
                exact synthStep_refl hs
              · rename_i hcont
                obtain ⟨cs, hgen, h⟩ := exceptBind_eq_ok h
                obtain ⟨code, s2⟩ := cs
                simp only [exceptPure_eq_ok, Except.ok.injEq, Prod.mk.injEq] at h
                obtain ⟨h1, h2⟩ := h
                subst h2
                exact synthStep_create hs hcont
                  (ihG _ _ _ _ _ _ _ hgen (defsInv_extendSeen hs itemName))
            · simp only [exceptPure_eq_ok, Except.ok.injEq, Prod.mk.injEq] at h
              obtain ⟨h1, h2⟩ := h
              subst h2
              exact synthStep_refl hs
          · obtain ⟨ls1, hgp, h⟩ := exceptBind_eq_ok h
            obtain ⟨lines, s1⟩ := ls1
            simp only [exceptPure_eq_ok, Except.ok.injEq, Prod.mk.injEq] at h
            obtain ⟨h1, h2⟩ := h
            subst h2
            exact ihP _ _ _ _ _ _ _ hgp hs
    · intro spec name reqOpt props s ls t h hs
      cases props with
      | nil =>
        simp only [genProps, Except.ok.injEq, Prod.mk.injEq] at h
        obtain ⟨h1, h2⟩ := h
        subst h2
        exact synthStep_refl hs
      | cons pv rest =>
        obtain ⟨prop, val⟩ := pv
        simp only [genProps] at h
        obtain ⟨pp, hpp, h⟩ := exceptBind_eq_ok h
        obtain ⟨ts1, htt, h⟩ := exceptBind_eq_ok h
        obtain ⟨tsType, s1⟩ := ts1
        obtain ⟨ls2, hgp, h⟩ := exceptBind_eq_ok h
        obtain ⟨lines, s2⟩ := ls2
        simp only [exceptPure_eq_ok, Except.ok.injEq, Prod.mk.injEq] at h
        obtain ⟨h1, h2⟩ := h
        subst h2
        have st1 := ihT _ _ _ _ _ _ htt hs
        have st2 := ihP _ _ _ _ _ _ _ hgp st1.1
        exact synthStep_trans st1 st2

/-- C4, counterexample: declaration-name uniqueness across the whole run
is not enforced by the seen-names set alone — the parameter registry
never consults it. One run in which type synthesis emits a declaration
named `IdPathParams` while `getReusableParamTypeName`, which consults
only its signature map, assigns the same name to a parameter type. -/
theorem c4_unique_names_counterexample :
    toTsType 5 (.obj [("components", .obj [("schemas", .obj [("IdPathParams",
        .obj [("properties", .obj [("id", .obj [("type", .str "string")])])])])])])
      (.obj [("$ref", .str "#/components/schemas/IdPathParams")]) "x" emptyState =
      .ok ("IdPathParams", ⟨["IdPathParams"],
        [("IdPathParams", "export interface IdPathParams \x7b\n  id?: string;\n\x7d")],
        ["export interface IdPathParams \x7b\n  id?: string;\n\x7d"]⟩) ∧
    getReusableParamTypeName [("id", "string")] "path" "GetItemPathParams" [] =
      .ok ("IdPathParams", [("IdPathParams", "id:string")]) :=
  ⟨rfl, rfl⟩

/-- C4 (amended): within the type-synthesis recursion the seen-names set
does enforce uniqueness — every successful `toTsType` call starting from
a state whose recorded declaration names are pairwise distinct and
marked seen yields a state with the same property, and the seen set only
grows. (The parameter registry is outside this mechanism, per the
counterexample.) -/
theorem c4_seen_guard_uniqueness (fuel : Nat) (spec v : Js) (nm : String)
    (s : GenState) (r : String) (t : GenState)
    (h : toTsType fuel spec v nm s = .ok (r, t)) (hs : DefsInv s) :
    DefsInv t ∧ ∃ ext, t.seen = s.seen ++ ext := by
  obtain ⟨h1, h2, _⟩ := (synth_inv fuel).1 spec v nm s r t h hs
  exact ⟨h1, h2⟩

/-- Closed instance of the seen-guard uniqueness theorem. -/
theorem c4_seen_guard_uniqueness_witness :
    DefsInv ⟨["IdPathParams"],
      [("IdPathParams", "export interface IdPathParams \x7b\n  id?: string;\n\x7d")],
      ["export interface IdPathParams \x7b\n  id?: string;\n\x7d"]⟩ ∧
    ∃ ext, (GenState.mk ["IdPathParams"]
      [("IdPathParams", "export interface IdPathParams \x7b\n  id?: string;\n\x7d")]
      ["export interface IdPathParams \x7b\n  id?: string;\n\x7d"]).seen =
        emptyState.seen ++ ext :=
  c4_seen_guard_uniqueness 5
    (.obj [("components", .obj [("schemas", .obj [("IdPathParams",
      .obj [("properties", .obj [("id", .obj [("type", .str "string")])])])])])])
    (.obj [("$ref", .str "#/components/schemas/IdPathParams")]) "x" emptyState
    "IdPathParams" _ rfl (by constructor <;> simp [emptyState])

end CpGen

